import Mathlib

/-!
Shallow embedding of the enrichment cache engine of the Equities repository
(`web/stocks/models.py`, `web/stocks/enriched_data_service.py`,
`web/airflow/scripts/comprehensive_enrichment.py`).

Modelling conventions:
* Python strings are Lean `String`s manipulated through their character
  lists (`upStr`, `strLe`, `strContains`, ...), because the corresponding
  core `String` functions do not reduce inside the kernel.
* Python floats are `ℚ`; fractional literals are written with `mkRat` so
  that concrete comparisons are kernel-decidable.
* SQL `NOW()` and Django `timezone.now()` are an explicit `now : Int`
  parameter measured in days, so `NOW() - INTERVAL '7 days'` is `now - 7`.
* A SHA-256 digest is modelled by its preimage: the key-sorted key/value
  list whose string rendering the code hashes.  Two digests are equal
  exactly when the sorted pair lists are equal (collision freedom of
  SHA-256 is assumed).
* The database table `enriched_ticker_data` is a `List` of row values and
  the known-symbol universe `stocks_listing` a `List` of symbols; SQL
  statements are functions over that state.
-/

/-- Python `str.upper()` (`Char.toUpper` over the character list). -/
def upStr (s : String) : String := ⟨s.data.map Char.toUpper⟩

/-- Python `str.lower()` (`Char.toLower` over the character list). -/
def lowerStr (s : String) : String := ⟨s.data.map Char.toLower⟩

/-- Character-list prefix test, used to model Python's `in` on strings. -/
def listPrefixOf : List Char → List Char → Bool
  | [], _ => true
  | _ :: _, [] => false
  | a :: as, b :: bs => a = b && listPrefixOf as bs

/-- Helper for `strContains`: does `needle` occur inside the list? -/
def containsL (needle : List Char) : List Char → Bool
  | [] => needle.isEmpty
  | c :: rest => listPrefixOf needle (c :: rest) || containsL needle rest

/-- Python `sub in s` (substring occurrence), also SQL `LIKE '%sub%'`. -/
def strContains (s sub : String) : Bool := containsL sub.data s.data

/-- Python `s.endswith(post)`. -/
def strEndsWith (s post : String) : Bool := listPrefixOf post.data.reverse s.data.reverse

/-- Lexicographic order on character lists (code-point comparison). -/
def lexLe : List Char → List Char → Bool
  | [], _ => true
  | _ :: _, [] => false
  | a :: as, b :: bs => if a < b then true else if b < a then false else lexLe as bs

/-- String comparison used by SQL `ORDER BY symbol` and Python `sorted`. -/
def strLe (a b : String) : Bool := lexLe a.data b.data

/-- Insertion step of the sort used to model `sorted(...)` / `ORDER BY`. -/
def insertLe (le : α → α → Bool) (x : α) : List α → List α
  | [] => [x]
  | y :: ys => if le x y then x :: y :: ys else y :: insertLe le x ys

/-- Insertion sort with a boolean comparator. -/
def sortLe (le : α → α → Bool) : List α → List α
  | [] => []
  | x :: xs => insertLe le x (sortLe le xs)

/-- A Python value as it occurs in the hashed `key_data` dictionaries:
`None`, a string, an integer, or a boolean. -/
inductive PyVal where
  | pynone : PyVal
  | pystr : String → PyVal
  | pyint : Int → PyVal
  | pybool : Bool → PyVal
  deriving DecidableEq, Repr

/-- Encode an optional string the way it lands in `key_data`. -/
def optStr : Option String → PyVal
  | none => .pynone
  | some s => .pystr s

/-- Encode an optional integer the way it lands in `key_data`. -/
def optInt : Option Int → PyVal
  | none => .pynone
  | some n => .pyint n

/-- Comparator for `sorted(key_data.items())`: dictionary keys are distinct,
so Python's tuple comparison only ever consults the key. -/
def keyLe (p q : String × PyVal) : Bool := strLe p.1 q.1

/-- Model of `str(sorted(key_data.items()))`: the key-sorted pair list,
standing for the SHA-256 digest of its rendering. -/
def pySortPairs (l : List (String × PyVal)) : List (String × PyVal) := sortLe keyLe l

/-- One row of the `enriched_ticker_data` table
(model `EnrichedTickerData` in `web/stocks/models.py`). -/
structure EnrichedRow where
  symbol : String
  exchange : Option String
  company_name : Option String
  asset_type : String
  asset_confidence : ℚ
  sector : Option String
  industry : Option String
  sector_key : Option String
  industry_key : Option String
  country : Option String
  country_code : Option String
  region : Option String
  market_cap : Option Int
  currency : Option String
  is_active : Bool
  data_source : String
  data_quality_score : ℚ
  fetch_success : Bool
  fetch_errors : Option (List String)
  first_loaded_at : Int
  last_updated_at : Int
  last_checked_at : Int
  data_changed_at : Option Int
  data_hash : List (String × PyVal)
  version : Nat
  deriving DecidableEq, Repr

/-- Database state: the known-symbol universe `stocks_listing` plus the
append-only `enriched_ticker_data` table. -/
structure Store where
  listing : List String
  rows : List EnrichedRow
  deriving DecidableEq, Repr

/-- Field dictionary passed to `EnrichedTickerData.create_new_version`;
defaults mirror the Django field defaults used when a key is absent. -/
structure ModelFields where
  company_name : Option String := none
  exchange : Option String := none
  asset_type : String := "OTHER"
  asset_confidence : ℚ := 0
  sector : Option String := none
  industry : Option String := none
  sector_key : Option String := none
  industry_key : Option String := none
  country : Option String := none
  country_code : Option String := none
  region : Option String := none
  market_cap : Option Int := none
  currency : Option String := none
  is_active : Bool := true
  data_source : String := "yfinance"
  data_quality_score : ℚ := 0
  fetch_success : Bool := true
  fetch_errors : Option (List String) := none
  deriving DecidableEq, Repr

/-- The `analysis_result` dictionary produced by
`comprehensive_ticker_analysis` and consumed by `update_enriched_data`;
`Option` mirrors `dict.get` (absent key = `none`). -/
structure AnalysisData where
  exchange : Option String := none
  company_name : Option String := none
  asset_type : Option String := none
  asset_confidence : Option ℚ := none
  sector : Option String := none
  industry : Option String := none
  sector_key : Option String := none
  industry_key : Option String := none
  country : Option String := none
  country_code : Option String := none
  region : Option String := none
  market_cap : Option Int := none
  currency : Option String := none
  is_active : Option Bool := none
  data_source : Option String := none
  data_quality_score : Option ℚ := none
  fetch_success : Option Bool := none
  fetch_errors : List String := []
  deriving DecidableEq, Repr

/-- Hash input of `EnrichedTickerData.calculate_data_hash` (models.py):
exactly the eight `key_data` entries, sorted by key. -/
def calculate_data_hash (asset_type : String) (sector industry country region : Option String)
    (market_cap : Option Int) (currency : Option String) (is_active : Bool) :
    List (String × PyVal) :=
  pySortPairs
    [ ("asset_type", .pystr asset_type)
    , ("sector", optStr sector)
    , ("industry", optStr industry)
    , ("country", optStr country)
    , ("region", optStr region)
    , ("market_cap", optInt market_cap)
    , ("currency", optStr currency)
    , ("is_active", .pybool is_active) ]

/-- `calculate_data_hash` evaluated on a stored row (`self.save()` recomputes
it from the instance's own fields). -/
def rowHash (r : EnrichedRow) : List (String × PyVal) :=
  calculate_data_hash r.asset_type r.sector r.industry r.country r.region
    r.market_cap r.currency r.is_active

/-- `calculate_data_hash` evaluated on the temporary instance built inside
`has_data_changed` from the incoming field dictionary. -/
def modelFieldsHash (d : ModelFields) : List (String × PyVal) :=
  calculate_data_hash d.asset_type d.sector d.industry d.country d.region
    d.market_cap d.currency d.is_active

/-- Hash input computed inline in `update_enriched_data`
(comprehensive_enrichment.py): exactly six `key_data` entries, sorted. -/
def batchDataHash (a : AnalysisData) : List (String × PyVal) :=
  pySortPairs
    [ ("asset_type", optStr a.asset_type)
    , ("sector", optStr a.sector)
    , ("industry", optStr a.industry)
    , ("country", optStr a.country)
    , ("market_cap", optInt a.market_cap)
    , ("company_name", optStr a.company_name) ]

/-- `order_by('-version').first()` over a row list: the first row carrying
the maximum version (versions are unique per symbol in the real table). -/
def latestOf : List EnrichedRow → Option EnrichedRow
  | [] => none
  | r :: rs =>
    match latestOf rs with
    | none => some r
    | some b => if r.version < b.version then some b else some r

/-- `EnrichedTickerData.get_latest_version`: filter on the uppercased symbol,
then take the highest version. -/
def get_latest_version (st : Store) (symbol : String) : Option EnrichedRow :=
  latestOf (st.rows.filter (fun r => r.symbol == upStr symbol))

/-- `EnrichedTickerData.has_data_changed`: no stored version counts as
changed; otherwise compare the stored digest with the incoming one. -/
def has_data_changed (st : Store) (symbol : String) (data : ModelFields) : Bool :=
  match get_latest_version st symbol with
  | none => true
  | some latest => !(latest.data_hash == modelFieldsHash data)

/-- Row created by `create_new_version`: Django `auto_now_add` stamps
`first_loaded_at` with the new row's own creation time, `auto_now` stamps
`last_updated_at`/`last_checked_at`, and the overridden `save()` computes
`data_hash` from the instance fields. -/
def rowOfModelFields (symbol : String) (v : Nat) (d : ModelFields) (now : Int) : EnrichedRow :=
  { symbol := upStr symbol
    exchange := d.exchange
    company_name := d.company_name
    asset_type := d.asset_type
    asset_confidence := d.asset_confidence
    sector := d.sector
    industry := d.industry
    sector_key := d.sector_key
    industry_key := d.industry_key
    country := d.country
    country_code := d.country_code
    region := d.region
    market_cap := d.market_cap
    currency := d.currency
    is_active := d.is_active
    data_source := d.data_source
    data_quality_score := d.data_quality_score
    fetch_success := d.fetch_success
    fetch_errors := d.fetch_errors
    first_loaded_at := now
    last_updated_at := now
    last_checked_at := now
    data_changed_at := some now
    data_hash := modelFieldsHash d
    version := v }

/-- `EnrichedTickerData.create_new_version`: on unchanged data touch only
`last_checked_at` of the latest row (`save(update_fields=['last_checked_at'])`)
and return `(latest, False)`; otherwise append a row with version
`latest.version + 1` (or 1) and return `(new_record, True)`. -/
def create_new_version (st : Store) (symbol : String) (data : ModelFields) (now : Int) :
    (Option EnrichedRow × Bool) × Store :=
  if has_data_changed st symbol data then
    let latest := get_latest_version st symbol
    let new_version := match latest with | some l => l.version + 1 | none => 1
    let new_record := rowOfModelFields symbol new_version data now
    ((some new_record, true), { st with rows := st.rows ++ [new_record] })
  else
    match get_latest_version st symbol with
    | some latest =>
      let touched := { latest with last_checked_at := now }
      ((some touched, false),
        { st with rows := st.rows.map (fun r => if r = latest then touched else r) })
    | none => ((none, false), st)

/-- SQL predicate `UPPER(symbol) = UPPER(%s)`. -/
def sqlMatches (symbol : String) (r : EnrichedRow) : Bool := upStr r.symbol == upStr symbol

/-- SQL `COALESCE(MAX(version), 0)` over the rows of one symbol. -/
def maxVersion (st : Store) (symbol : String) : Nat :=
  (st.rows.filter (sqlMatches symbol)).foldl (fun m r => max m r.version) 0

/-- Row inserted by the `INSERT` statement of `update_enriched_data`;
`.get` defaults are applied at the call sites that build the parameter
tuple, `fetch_errors` becomes SQL `NULL` when the error list is falsy. -/
def rowOfAnalysis (symbol : String) (v : Nat) (a : AnalysisData) (flo : Int) (now : Int) :
    EnrichedRow :=
  { symbol := upStr symbol
    exchange := a.exchange
    company_name := a.company_name
    asset_type := a.asset_type.getD "OTHER"
    asset_confidence := a.asset_confidence.getD 0
    sector := a.sector
    industry := a.industry
    sector_key := a.sector_key
    industry_key := a.industry_key
    country := a.country
    country_code := a.country_code
    region := a.region
    market_cap := a.market_cap
    currency := a.currency
    is_active := a.is_active.getD true
    data_source := a.data_source.getD "yfinance_comprehensive"
    data_quality_score := a.data_quality_score.getD 0
    fetch_success := a.fetch_success.getD false
    fetch_errors := if a.fetch_errors.isEmpty then none else some a.fetch_errors
    first_loaded_at := flo
    last_updated_at := now
    last_checked_at := now
    data_changed_at := some now
    data_hash := batchDataHash a
    version := v }

/-- `update_enriched_data` (comprehensive_enrichment.py): compare the latest
stored digest with the incoming one; on a match run the `UPDATE ... SET
last_checked_at = NOW()` on that `(symbol, version)`; otherwise insert a new
row with version `MAX(version)+1`, propagating `first_loaded_at` from an
existing row of the symbol via the `CASE WHEN` subquery (the subquery is
nonempty whenever the new version exceeds 1; the `none` fallback models its
unreachable NULL case). -/
def update_enriched_data (st : Store) (symbol : String) (a : AnalysisData) (now : Int) : Store :=
  let data_hash := batchDataHash a
  let inserted : Store :=
    let new_version := maxVersion st symbol + 1
    let flo : Int :=
      if new_version = 1 then now
      else
        match (st.rows.filter (sqlMatches symbol)).head? with
        | some r => r.first_loaded_at
        | none => now
    { st with rows := st.rows ++ [rowOfAnalysis symbol new_version a flo now] }
  match latestOf (st.rows.filter (sqlMatches symbol)) with
  | some existing =>
    if existing.data_hash == data_hash then
      { st with rows := st.rows.map (fun r =>
          if sqlMatches symbol r && r.version == existing.version
          then { r with last_checked_at := now } else r) }
    else inserted
  | none => inserted

/-- One Version Store write: either the batch SQL path or the Django model
path. -/
inductive Op where
  | batch (symbol : String) (a : AnalysisData) (now : Int)
  | django (symbol : String) (d : ModelFields) (now : Int)
  deriving Repr

/-- Target symbol of a write. -/
def Op.sym : Op → String
  | .batch s _ _ => s
  | .django s _ _ => s

/-- Apply one write to the store. -/
def applyOp (st : Store) : Op → Store
  | .batch s a t => update_enriched_data st s a t
  | .django s d t => (create_new_version st s d t).2

/-- Apply a sequence of writes to the store. -/
def applyOps (st : Store) (ops : List Op) : Store := ops.foldl applyOp st

/-- The permanent-not-found error tag. -/
def tag404 : String := "404_NOT_FOUND"

/-- SQL `fetch_errors::text LIKE '%404_NOT_FOUND%'`: the JSON rendering of
the tag list contains the tag as a substring exactly when some element does
(the tag contains no quote or comma, so it cannot straddle separators);
a NULL `fetch_errors` makes the LIKE evaluate to NULL, never true. -/
def errsHave404 : Option (List String) → Bool
  | none => false
  | some l => l.any (fun t => strContains t tag404)

/-- A row whose `fetch_errors` text matches the 404 tag. -/
def rowHas404 (r : EnrichedRow) : Bool := errsHave404 r.fetch_errors

/-- Disjunct `fetch_success = FALSE AND NOT fetch_errors::text LIKE
'%404_NOT_FOUND%'`: under SQL three-valued logic a NULL `fetch_errors`
keeps the conjunction from being true. -/
def failedNot404 (r : EnrichedRow) : Bool :=
  !r.fetch_success &&
    (match r.fetch_errors with
     | none => false
     | some l => !(l.any (fun t => strContains t tag404)))

/-- Disjunct `last_checked_at < NOW() - INTERVAL '%s days'`. -/
def freshnessStale (now : Int) (days : Nat) (r : EnrichedRow) : Bool :=
  decide (r.last_checked_at < now - days)

/-- Disjunct `data_quality_score < %s`. -/
def lowQuality (min_quality : ℚ) (r : EnrichedRow) : Bool :=
  decide (r.data_quality_score < min_quality)

/-- The big OR of the `WHERE` clause, applied to one joined row. -/
def staleDisjunct (now : Int) (days : Nat) (min_quality : ℚ) (r : EnrichedRow) : Bool :=
  freshnessStale now days r || failedNot404 r || lowQuality min_quality r

/-- Subquery `EXISTS e2`: a recent (within 1 day) row of the symbol whose
quality meets the threshold. -/
def recentHighQuality (st : Store) (min_quality : ℚ) (now : Int) (lsym : String) : Bool :=
  st.rows.any (fun e2 =>
    sqlMatches lsym e2 && decide (min_quality ≤ e2.data_quality_score) &&
      decide (now - 1 ≤ e2.last_checked_at))

/-- Subquery `EXISTS e3`: any version of the symbol carrying the 404 tag. -/
def quarantined (st : Store) (lsym : String) : Bool :=
  st.rows.any (fun e3 => sqlMatches lsym e3 && rowHas404 e3)

/-- `LENGTH(l.symbol) BETWEEN 1 AND 32`. -/
def lenOK (s : String) : Bool :=
  decide (1 ≤ s.data.length) && decide (s.data.length ≤ 32)

/-- The `LEFT JOIN` of `get_stale_tickers`: one pair per listing symbol and
matching enrichment row, or a single `none` pair when no row matches. -/
def joinedRows (st : Store) : List (String × Option EnrichedRow) :=
  st.listing.flatMap (fun l =>
    let es := st.rows.filter (sqlMatches l)
    if es.isEmpty then [(l, none)] else es.map (fun e => (l, some e)))

/-- The `WHERE` clause of `get_stale_tickers` applied to one joined pair
(`e.symbol IS NULL` is the `none` case of the joined row). -/
def whereClause (st : Store) (days : Nat) (min_quality : ℚ) (now : Int)
    (p : String × Option EnrichedRow) : Bool :=
  lenOK p.1
  && (match p.2 with
      | none => true
      | some e => staleDisjunct now days min_quality e)
  && !recentHighQuality st min_quality now p.1
  && !quarantined st p.1

/-- Joined pairs surviving the `WHERE` clause. -/
def keptRows (st : Store) (days : Nat) (min_quality : ℚ) (now : Int) :
    List (String × Option EnrichedRow) :=
  (joinedRows st).filter (whereClause st days min_quality now)

/-- `get_stale_tickers` (comprehensive_enrichment.py): the pairs surviving
the `WHERE` clause go through `SELECT DISTINCT ... ORDER BY l.symbol
LIMIT %s` (deduplicate, sort, cap), and the Python caller uppercases each
resulting symbol. -/
def get_stale_tickers (st : Store) (days : Nat) (limit : Nat) (min_quality : ℚ)
    (now : Int) : List String :=
  ((sortLe strLe ((keptRows st days min_quality now).map Prod.fst).dedup).take limit).map
    upStr

/-- Membership predicate of the amended selector characterization: the
claim's disjunction over a symbol's records plus the two conditions the
code adds on top of the claim's words — the `LENGTH(l.symbol) BETWEEN 1
AND 32` filter (`lenOK`), and, inside the failed-without-404 disjunct, the
requirement that `fetch_errors` be non-NULL (`failedNot404`, SQL
three-valued logic). -/
def specStalePred (st : Store) (days : Nat) (min_quality : ℚ) (now : Int) (l : String) : Bool :=
  lenOK l
  && ((st.rows.filter (sqlMatches l)).isEmpty
      || st.rows.any (fun e => sqlMatches l e && freshnessStale now days e)
      || st.rows.any (fun e => sqlMatches l e && failedNot404 e)
      || st.rows.any (fun e => sqlMatches l e && lowQuality min_quality e))
  && !recentHighQuality st min_quality now l
  && !quarantined st l

/-- The amended `selectCandidates`: the declarative filter
(`specStalePred`, claim's words plus the two code-added conditions) over
the known-symbol universe, sorted and capped. -/
def selectCandidates (st : Store) (days : Nat) (limit : Nat) (min_quality : ℚ)
    (now : Int) : List String :=
  ((sortLe strLe ((st.listing.filter (specStalePred st days min_quality now)).dedup)).take
      limit).map upStr

/-- Modelled from the claim's words: `fetch_success = false` without a
`404_NOT_FOUND` tag — a record with NULL `fetch_errors` carries no tag and
therefore satisfies this, unlike the SQL disjunct `failedNot404`. -/
def failedNoTag (r : EnrichedRow) : Bool :=
  !r.fetch_success && !rowHas404 r

/-- Modelled from the spec's and claim C7's words alone (no length filter,
claim-literal failed-without-404 disjunct): a known symbol is selected when
no enrichment record exists, or some record is older than the freshness
window, or some record failed without the 404 tag, or some record scores
below the threshold — excluding symbols with a recent (1-day) record
meeting the threshold and excluding quarantined symbols. -/
def specStalePredClaim (st : Store) (days : Nat) (min_quality : ℚ) (now : Int)
    (l : String) : Bool :=
  ((st.rows.filter (sqlMatches l)).isEmpty
      || st.rows.any (fun e => sqlMatches l e && freshnessStale now days e)
      || st.rows.any (fun e => sqlMatches l e && failedNoTag e)
      || st.rows.any (fun e => sqlMatches l e && lowQuality min_quality e))
  && !recentHighQuality st min_quality now l
  && !quarantined st l

/-- Modelled from the claim's words: `selectCandidates` as the claim-literal
declarative filter over the known-symbol universe, sorted and capped. -/
def selectCandidatesClaim (st : Store) (days : Nat) (limit : Nat) (min_quality : ℚ)
    (now : Int) : List String :=
  ((sortLe strLe ((st.listing.filter
      (specStalePredClaim st days min_quality now)).dedup)).take limit).map upStr

/-- Python truthiness of an optional string (`None` and `''` are falsy). -/
def truthyS : Option String → Bool
  | none => false
  | some s => !(s == "")

/-- Python truthiness of an optional integer (`None` and `0` are falsy). -/
def truthyI : Option Int → Bool
  | none => false
  | some n => !(n == 0)

/-- Python falsiness of `fetch_errors` (`not self.fetch_errors`). -/
def errsEmpty : Option (List String) → Bool
  | none => true
  | some l => l.isEmpty

/-- `_calculate_quality_score` (comprehensive_enrichment.py): weighted
presence of analysis fields, divided by the maximum attainable 10.0 and
clamped to 1. -/
def calculate_quality_score (a : AnalysisData) : ℚ :=
  let score : ℚ :=
    (if truthyS a.company_name then 1 else 0)
    + (if truthyS a.asset_type && !(a.asset_type == some "OTHER") then 2 else 0)
    + (if truthyS a.sector then mkRat 3 2 else 0)
    + (if truthyS a.industry then mkRat 3 2 else 0)
    + (if truthyS a.country then 1 else 0)
    + (if truthyI a.market_cap then 1 else 0)
    + (if truthyS a.currency then mkRat 1 2 else 0)
    + (if truthyS a.exchange then mkRat 1 2 else 0)
    + (if decide (mkRat 4 5 < a.asset_confidence.getD 0) then 1 else 0)
  min (score / 10) 1

/-- `EnrichedTickerData.data_completeness_score`: the number of filled key
fields out of 12 (`mkRat filled 12` is `filled / 12`). -/
def data_completeness_score (r : EnrichedRow) : ℚ :=
  let conds : List Bool :=
    [ truthyS r.company_name
    , !(r.asset_type == "OTHER")
    , truthyS r.sector
    , truthyS r.industry
    , truthyS r.sector_key
    , truthyS r.country
    , truthyS r.region
    , truthyI r.market_cap
    , truthyS r.currency
    , !(r.data_source == "")
    , r.fetch_success
    , errsEmpty r.fetch_errors ]
  mkRat (conds.countP id) 12

/-- `EnrichedTickerData.is_stale`: older than 7 days (the `last_checked_at`
column is non-nullable, `auto_now`). -/
def is_stale (r : EnrichedRow) (now : Int) : Bool :=
  decide (r.last_checked_at < now - 7)

/-- The slice of the yfinance `info` dictionary read by the service-layer
extraction (`none` models an absent key). -/
structure ApiInfo where
  longName : Option String := none
  shortName : Option String := none
  exchange : Option String := none
  currency : Option String := none
  quoteType : Option String := none
  sector : Option String := none
  industry : Option String := none
  country : Option String := none
  marketCap : Option Int := none
  deriving DecidableEq, Repr

/-- The flat response dictionary returned by the lookup service; `none`
models an absent key. -/
structure Response where
  symbol : Option String := none
  company_name : Option String := none
  exchange : Option String := none
  asset_type : Option String := none
  asset_confidence : Option ℚ := none
  sector : Option String := none
  industry : Option String := none
  sector_key : Option String := none
  industry_key : Option String := none
  country : Option String := none
  country_code : Option String := none
  region : Option String := none
  market_cap : Option Int := none
  currency : Option String := none
  is_active : Option Bool := none
  data_quality_score : Option ℚ := none
  data_source : Option String := none
  cached_at : Option Int := none
  version : Option Nat := none
  success : Bool := false
  from_database : Bool := false
  error : Option String := none
  deriving DecidableEq, Repr

/-- `EnrichedDataService._generate_key`: `None` or an empty name gives
`None`; otherwise lowercase and replace non-alphanumeric characters by
underscores. -/
def genKey : Option String → Option String
  | none => none
  | some s =>
    if s == "" then none
    else some ⟨(s.data.map Char.toLower).map (fun c => if c.isAlphanum then c else '_')⟩

/-- Asset classification chain of `_extract_comprehensive_api_data`
(enriched_data_service.py): returns the asset type and its confidence. -/
def classifyAsset (symbol : String) (quote_type long_name : String) : String × ℚ :=
  if quote_type == "ETF" || strContains long_name "ETF" then ("ETF", mkRat 19 20)
  else if quote_type == "MUTUALFUND" then ("MUTUAL_FUND", mkRat 19 20)
  else if quote_type == "EQUITY" || quote_type == "STOCK" then
    (if strContains long_name "REIT" then ("REIT", mkRat 9 10)
     else if strContains long_name "PREFERRED" || strContains symbol ".PR" then
       ("PREFERRED", mkRat 9 10)
     else ("STOCK", mkRat 4 5))
  else if strEndsWith symbol ".WT" || strEndsWith symbol ".W" then ("WARRANT", mkRat 17 20)
  else ("OTHER", mkRat 3 10)

/-- Country inference of `_extract_comprehensive_api_data`: use the
provider's country when truthy, else infer from the symbol suffix. -/
def inferCountry (symbol : String) (c : Option String) : String :=
  if truthyS c then c.getD ""
  else if strEndsWith symbol ".TO" || strEndsWith symbol ".V" then "Canada"
  else if strEndsWith symbol ".L" || strEndsWith symbol ".LSE" then "United Kingdom"
  else if strEndsWith symbol ".DE" || strEndsWith symbol ".F" then "Germany"
  else "United States"

/-- The `region_mapping` dictionary with its `('North America', 'US')`
default. -/
def regionAndCode (c : String) : String × String :=
  if c == "Canada" then ("North America", "CA")
  else if c == "United States" then ("North America", "US")
  else if c == "United Kingdom" then ("Europe", "GB")
  else if c == "Germany" then ("Europe", "DE")
  else if c == "France" then ("Europe", "FR")
  else if c == "Japan" then ("Asia", "JP")
  else if c == "China" then ("Asia", "CN")
  else if c == "Australia" then ("Oceania", "AU")
  else ("North America", "US")

/-- The `filled_fields` count of the service quality formula: truthy values
among the eight listed entries (the asset-type entry is `None`-ed out when
it equals `'OTHER'`). -/
def apiFilledCount (company_name : Option String) (asset_type : String)
    (sector industry : Option String) (country : String) (market_cap : Option Int)
    (currency : String) (exchange : Option String) : Nat :=
  ([ truthyS company_name
   , !(asset_type == "OTHER") && !(asset_type == "")
   , truthyS sector
   , truthyS industry
   , !(country == "")
   , truthyI market_cap
   , !(currency == "")
   , truthyS exchange ] : List Bool).countP id

/-- `EnrichedDataService._extract_comprehensive_api_data`: mirrors the
background extraction, computes `quality_score = min(filled/8, 1)` and marks
`success` exactly when the quality score exceeds 0.2. -/
def extract_comprehensive_api_data (symbol : String) (i : ApiInfo) : Response :=
  let company_name := if truthyS i.longName then i.longName else i.shortName
  let exchange := i.exchange
  let currency : String := i.currency.getD "USD"
  let quote_type := upStr (i.quoteType.getD "")
  let long_name := upStr (company_name.getD "")
  let ac := classifyAsset symbol quote_type long_name
  let sector := i.sector
  let industry := i.industry
  let country := inferCountry symbol i.country
  let rc := regionAndCode country
  let market_cap : Option Int :=
    match i.marketCap with
    | some n => if n == 0 then none else some n
    | none => none
  let filled := apiFilledCount company_name ac.1 sector industry country market_cap
    currency exchange
  let quality_score := min (mkRat filled 8) 1
  { symbol := some symbol
    company_name := company_name
    exchange := exchange
    asset_type := some ac.1
    asset_confidence := some ac.2
    sector := sector
    industry := industry
    sector_key := genKey sector
    industry_key := genKey industry
    country := some country
    country_code := some rc.2
    region := some rc.1
    market_cap := market_cap
    currency := some currency
    is_active := some true
    data_quality_score := some quality_score
    data_source := some "webapp_yfinance_fallback"
    success := decide (mkRat 1 5 < quality_score)
    from_database := false }

/-- Result of `SectorAnalyzer.enhance_stock_with_sector_data`, an external
collaborator of the fallback branch. -/
structure SectorResult where
  success : Bool := false
  sector : Option String := none
  industry : Option String := none
  sector_key : Option String := none
  industry_key : Option String := none
  deriving DecidableEq, Repr

/-- Outcome of the provider interaction inside `_fetch_from_api`: either
`ticker.info` produced a dictionary (a failed inner fetch is `got {}`,
since the inner `except` continues with an empty dict), or an exception
escaped to the outer handler. -/
inductive FetchOutcome where
  | got (i : ApiInfo)
  | raised (msg : String)
  deriving DecidableEq, Repr

/-- `EnrichedDataService._fetch_from_api`: extraction, the low-quality
sector-analysis fallback with its quality recomputation, and the outer
exception handler that returns a structured failure dictionary instead of
raising. -/
def fetch_from_api (symbol : String) (outcome : FetchOutcome) (fallback : SectorResult) :
    Response :=
  match outcome with
  | .raised msg =>
    { symbol := some symbol
      success := false
      error := some msg
      data_source := some "webapp_api_error"
      from_database := false
      data_quality_score := some 0 }
  | .got i =>
    let api := extract_comprehensive_api_data symbol i
    if !api.success || decide (api.data_quality_score.getD 0 < mkRat 3 10) then
      if fallback.success then
        let api' := { api with
          sector := fallback.sector
          industry := fallback.industry
          sector_key := fallback.sector_key
          industry_key := fallback.industry_key
          success := true }
        let filled := apiFilledCount api'.company_name (api'.asset_type.getD "")
          api'.sector api'.industry (api'.country.getD "") api'.market_cap
          (api'.currency.getD "") api'.exchange
        { api' with data_quality_score := some (min (mkRat filled 8) 1) }
      else api
    else api

/-- `EnrichedDataService._convert_to_api_format`. -/
def convert_to_api_format (r : EnrichedRow) : Response :=
  { symbol := some r.symbol
    company_name := r.company_name
    exchange := r.exchange
    asset_type := some r.asset_type
    asset_confidence := some r.asset_confidence
    sector := r.sector
    industry := r.industry
    sector_key := r.sector_key
    industry_key := r.industry_key
    country := r.country
    country_code := r.country_code
    region := r.region
    market_cap := r.market_cap
    currency := r.currency
    is_active := some r.is_active
    data_quality_score := some (data_completeness_score r)
    data_source := some "database"
    cached_at := some r.last_updated_at
    version := some r.version
    success := r.fetch_success
    from_database := true }

/-- `EnrichedDataService._get_from_database`: the latest version if present,
not stale, and successful; otherwise nothing. -/
def get_from_database (st : Store) (symbol : String) (now : Int) : Option Response :=
  match get_latest_version st symbol with
  | none => none
  | some latest =>
    if is_stale latest now then none
    else if !latest.fetch_success then none
    else some (convert_to_api_format latest)

/-- `EnrichedDataService._store_enriched_data`: refuse unsuccessful results,
otherwise build the storage dictionary and run the change-detection upsert. -/
def store_enriched_data (st : Store) (symbol : String) (api : Response) (now : Int) :
    Store × Bool :=
  if !api.success then (st, false)
  else
    let storage_data : ModelFields :=
      { company_name := api.company_name
        exchange := api.exchange
        asset_type := api.asset_type.getD "OTHER"
        asset_confidence := api.asset_confidence.getD 0
        sector := api.sector
        industry := api.industry
        sector_key := api.sector_key
        industry_key := api.industry_key
        country := api.country
        country_code := api.country_code
        region := api.region
        market_cap := api.market_cap
        currency := api.currency
        is_active := api.is_active.getD true
        data_source := "webapp_api_fallback"
        data_quality_score := api.data_quality_score.getD 0
        fetch_success := true
        fetch_errors := none }
    ((create_new_version st symbol storage_data now).2, true)

/-- `EnrichedDataService.get_ticker_info`: uppercase the symbol; unless
`force_refresh`, serve fresh successful database data; otherwise perform
one fetch cycle and store its result only when it is successful. -/
def get_ticker_info (st : Store) (symbol : String) (force_refresh : Bool)
    (outcome : FetchOutcome) (fallback : SectorResult) (now : Int) : Response × Store :=
  let sym := upStr symbol
  let api := fetch_from_api sym outcome fallback
  let fetched : Response × Store :=
    if api.success then (api, (store_enriched_data st sym api now).1) else (api, st)
  if !force_refresh then
    match get_from_database st sym now with
    | some db => (db, st)
    | none => fetched
  else fetched

/-- Result of the `ticker.history(period='1d')` probe in the 404 checks. -/
inductive HistProbe where
  | frame (empty : Bool)
  | raisedH (msg : String)
  deriving DecidableEq, Repr

/-- Outcome of one attempt of the `ticker.info` retry loop in
`comprehensive_ticker_analysis`: the raw info dictionary plus the history
probe, or an exception message. -/
inductive AttemptOutcome where
  | gotInfo (info : List (String × PyVal)) (hist : HistProbe)
  | infoExn (msg : String)
  deriving DecidableEq, Repr

/-- Mutable state threaded through the retry loop of
`comprehensive_ticker_analysis`; `sleeps` records every `time.sleep`
duration in seconds. -/
structure LoopResult where
  fetch_success : Bool := false
  fetch_errors : List String := []
  is_404_failed : Bool := false
  sleeps : List Nat := []
  deriving DecidableEq, Repr

/-- The keys probed by 404 check 2. -/
def essentialKeys : List String := ["regularMarketPrice", "symbol", "shortName", "longName"]

/-- The phrases probed in a history-probe exception message. -/
def delistedPhrases : List String := ["delisted", "no data found", "possibly delisted"]

/-- Python `info.get(k)` on the raw dictionary. -/
def lookupPy (info : List (String × PyVal)) (k : String) : Option PyVal :=
  match info.find? (fun p => p.1 == k) with
  | some p => some p.2
  | none => none

/-- The three 404/delisting checks performed on a successfully fetched
info dictionary. -/
def detect404 (info : List (String × PyVal)) (hist : HistProbe) : Bool :=
  if info.length == 1 && (lookupPy info "trailingPegRatio" == some PyVal.pynone) then true
  else if !(essentialKeys.any (fun k => (lookupPy info k).isSome)) then true
  else
    match hist with
    | .frame empty => empty
    | .raisedH m => delistedPhrases.any (fun p => strContains (lowerStr m) p)

/-- The 404 branch test on an exception message. -/
def is404Msg (m : String) : Bool :=
  strContains m "404" || strContains m "Not Found" || strContains m "HTTP Error 404"

/-- The rate-limit branch test on an exception message. -/
def is429Msg (m : String) : Bool :=
  strContains m "429" || strContains m "Too Many Requests"

/-- The `for attempt in range(max_retries)` loop of
`comprehensive_ticker_analysis`, lines 223-293: `attempt` is the loop index
and `rem + 1 = max_retries - attempt` the remaining iterations, so
`0 < rem` is `attempt < max_retries - 1`; the 429 branch sleeps
`(2 ** attempt) * 10` seconds and continues, every other branch breaks. -/
def fetchInfoLoop (attempts : Nat → AttemptOutcome) : Nat → Nat → LoopResult → LoopResult
  | _, 0, acc => acc
  | attempt, rem + 1, acc =>
    match attempts attempt with
    | .gotInfo info hist =>
      if detect404 info hist then
        { acc with fetch_errors := acc.fetch_errors ++ [tag404], fetch_success := false,
                   is_404_failed := true }
      else if !info.isEmpty then
        { acc with fetch_success := true }
      else
        { acc with fetch_errors := acc.fetch_errors ++ ["EMPTY_INFO_RETURNED"],
                   fetch_success := false }
    | .infoExn msg =>
      if is404Msg msg then
        { acc with fetch_errors := acc.fetch_errors ++ [tag404], fetch_success := false,
                   is_404_failed := true }
      else if is429Msg msg then
        if 0 < rem then
          fetchInfoLoop attempts (attempt + 1) rem
            { acc with sleeps := acc.sleeps ++ [2 ^ attempt * 10] }
        else
          { acc with fetch_errors := acc.fetch_errors ++ ["RATE_LIMIT_EXCEEDED"],
                     fetch_success := false }
      else
        { acc with fetch_errors := acc.fetch_errors ++ ["API_ERROR: " ++ msg],
                   fetch_success := false }

/-- The whole retry section with its initial `analysis_result` fields and
`max_retries = 3`. -/
def analysisRetry (attempts : Nat → AttemptOutcome) : LoopResult :=
  fetchInfoLoop attempts 0 3 {}


/-- Did a write take the insert branch (content changed) rather than the
timestamp-touch branch?  Mirrors the branch conditions of the two upsert
implementations. -/
def opInserted (st : Store) : Op → Bool
  | .batch s a _ =>
    match latestOf (st.rows.filter (sqlMatches s)) with
    | some existing => !(existing.data_hash == batchDataHash a)
    | none => true
  | .django s d _ => has_data_changed st s d

/-- Number of writes of a sequence that took the insert branch, replaying
the store state. -/
def changeCount (st : Store) : List Op → Nat
  | [] => 0
  | op :: rest => (if opInserted st op then 1 else 0) + changeCount (applyOp st op) rest

/-- A row value with every column at its schema default, used to build
concrete table states. -/
def baseRow : EnrichedRow :=
  { symbol := ""
    exchange := none
    company_name := none
    asset_type := "OTHER"
    asset_confidence := 0
    sector := none
    industry := none
    sector_key := none
    industry_key := none
    country := none
    country_code := none
    region := none
    market_cap := none
    currency := none
    is_active := true
    data_source := "yfinance"
    data_quality_score := 0
    fetch_success := true
    fetch_errors := none
    first_loaded_at := 0
    last_updated_at := 0
    last_checked_at := 0
    data_changed_at := none
    data_hash := []
    version := 1 }

/-- A fresh high-quality row (quality 0.9, checked at time 100). -/
def freshRow (s : String) : EnrichedRow :=
  { baseRow with symbol := s, data_quality_score := mkRat 9 10, last_checked_at := 100 }

/-- A permanently quarantined row (failed fetch tagged `404_NOT_FOUND`). -/
def q404Row (s : String) : EnrichedRow :=
  { baseRow with symbol := s, fetch_success := false, fetch_errors := some [tag404] }

/-- Scenario F of the spec: the ten quarantined symbols. -/
def scenarioQ : List String :=
  ["Q01", "Q02", "Q03", "Q04", "Q05", "Q06", "Q07", "Q08", "Q09", "Q10"]

/-- Scenario F of the spec: the five fresh high-quality symbols. -/
def scenarioF : List String := ["F01", "F02", "F03", "F04", "F05"]

/-- Scenario F of the spec: the fifteen stale symbols (no enrichment row). -/
def scenarioS : List String :=
  ["S01", "S02", "S03", "S04", "S05", "S06", "S07", "S08",
   "S09", "S10", "S11", "S12", "S13", "S14", "S15"]

/-- Scenario F of the spec: 30 known symbols, 10 quarantined, 5 fresh
high-quality, 15 with no enrichment record. -/
def scenarioStore : Store :=
  { listing := scenarioQ ++ scenarioF ++ scenarioS
    rows := scenarioQ.map q404Row ++ scenarioF.map freshRow }

/-- A fresh, successful stored row for AAPL (checked at time 100). -/
def c8row : EnrichedRow := { baseRow with symbol := "AAPL", last_checked_at := 100 }

/-- A store whose single symbol has fresh successful data. -/
def c8store : Store := { listing := ["AAPL"], rows := [c8row] }

/-- A store in which symbol DEAD already carries the 404 quarantine tag. -/
def c1store : Store := { listing := ["DEAD", "LIVE"], rows := [q404Row "DEAD"] }

/-- Later writes for DEAD through both upsert paths. -/
def c1ops : List Op :=
  [ .batch "DEAD" { sector := some "Tech" } 50
  , .django "DEAD" { sector := some "Mining" } 60 ]

/-- A write sequence for ABC: two identical batch writes then one changed
Django write. -/
def c5ops : List Op :=
  [ .batch "ABC" { sector := some "Tech" } 1
  , .batch "ABC" { sector := some "Tech" } 2
  , .django "ABC" { sector := some "Health" } 3 ]

/-- A record for symbol AA whose fetch failed with `fetch_errors` left NULL:
fresh (checked at day 95) and high-quality (9/10), so none of the claim's
freshness/quality disjuncts hold, yet it carries no 404 tag. -/
def c7NullErrRow : EnrichedRow :=
  { baseRow with
      symbol := "AA"
      fetch_success := false
      fetch_errors := none
      last_checked_at := 95
      data_quality_score := mkRat 9 10 }

/-- A store listing the empty-string symbol (no record, length 0) and AA
(the NULL-`fetch_errors` failed record). -/
def c7cexStore : Store :=
  { listing := ["", "AA"], rows := [c7NullErrRow] }

/-! Helper lemmas about the character-list order and the insertion sort. -/

theorem lexLe_total : ∀ (a b : List Char), lexLe a b = true ∨ lexLe b a = true
  | [], _ => Or.inl rfl
  | _ :: _, [] => Or.inr rfl
  | a :: as, b :: bs => by
    by_cases hab : a < b
    · exact Or.inl (by simp [lexLe, hab])
    · by_cases hba : b < a
      · exact Or.inr (by simp [lexLe, hba])
      · rcases lexLe_total as bs with h | h
        · exact Or.inl (by simp [lexLe, hab, hba, h])
        · exact Or.inr (by simp [lexLe, hab, hba, h])

theorem lexLe_trans : ∀ {a b c : List Char},
    lexLe a b = true → lexLe b c = true → lexLe a c = true
  | [], _, _, _, _ => rfl
  | _ :: _, [], _, h1, _ => by simp [lexLe] at h1
  | _ :: _, _ :: _, [], _, h2 => by simp [lexLe] at h2
  | a :: as, b :: bs, c :: cs, h1, h2 => by
    by_cases hab : a < b
    · by_cases hbc : b < c
      · simp [lexLe, lt_trans hab hbc]
      · by_cases hcb : c < b
        · simp [lexLe, hbc, hcb] at h2
        · have hbceq : b = c := le_antisymm (not_lt.mp hcb) (not_lt.mp hbc)
          subst hbceq
          simp [lexLe, hab]
    · by_cases hba : b < a
      · simp [lexLe, hab, hba] at h1
      · have hab' : a = b := le_antisymm (not_lt.mp hba) (not_lt.mp hab)
        subst hab'
        simp only [lexLe, lt_irrefl, if_false] at h1
        by_cases hac : a < c
        · simp [lexLe, hac]
        · by_cases hca : c < a
          · simp [lexLe, hac, hca] at h2
          · have haceq : a = c := le_antisymm (not_lt.mp hca) (not_lt.mp hac)
            subst haceq
            simp only [lexLe, lt_irrefl, if_false] at h2 ⊢
            exact lexLe_trans h1 h2

theorem lexLe_antisymm : ∀ {a b : List Char},
    lexLe a b = true → lexLe b a = true → a = b
  | [], [], _, _ => rfl
  | [], _ :: _, _, h2 => by simp [lexLe] at h2
  | _ :: _, [], h1, _ => by simp [lexLe] at h1
  | a :: as, b :: bs, h1, h2 => by
    by_cases hab : a < b
    · simp [lexLe, hab, lt_asymm hab] at h2
    · by_cases hba : b < a
      · simp [lexLe, hab, hba] at h1
      · have h : a = b := le_antisymm (not_lt.mp hba) (not_lt.mp hab)
        subst h
        simp only [lexLe, lt_irrefl, if_false] at h1 h2
        rw [lexLe_antisymm h1 h2]

theorem strLe_total (a b : String) : strLe a b = true ∨ strLe b a = true :=
  lexLe_total a.data b.data

theorem strLe_trans {a b c : String} (h1 : strLe a b = true) (h2 : strLe b c = true) :
    strLe a c = true :=
  lexLe_trans h1 h2

theorem strLe_antisymm {a b : String} (h1 : strLe a b = true) (h2 : strLe b a = true) :
    a = b := by
  have h := lexLe_antisymm h1 h2
  cases a
  cases b
  exact congrArg String.mk h

theorem keyLe_total (p q : String × PyVal) : keyLe p q = true ∨ keyLe q p = true :=
  strLe_total p.1 q.1

theorem keyLe_trans (p q r : String × PyVal) (h1 : keyLe p q = true)
    (h2 : keyLe q r = true) : keyLe p r = true :=
  strLe_trans h1 h2

theorem insertLe_perm (le : α → α → Bool) (x : α) :
    ∀ l : List α, (insertLe le x l).Perm (x :: l)
  | [] => .refl _
  | y :: ys => by
    rw [insertLe]
    by_cases h : le x y = true
    · rw [if_pos h]
    · rw [if_neg h]
      exact ((insertLe_perm le x ys).cons y).trans (List.Perm.swap x y ys)

theorem sortLe_perm (le : α → α → Bool) : ∀ l : List α, (sortLe le l).Perm l
  | [] => .refl _
  | x :: xs => by
    rw [sortLe]
    exact (insertLe_perm le x (sortLe le xs)).trans ((sortLe_perm le xs).cons x)

theorem insertLe_pairwise (le : α → α → Bool)
    (htot : ∀ a b, le a b = true ∨ le b a = true)
    (htr : ∀ a b c, le a b = true → le b c = true → le a c = true) (x : α) :
    ∀ (l : List α), l.Pairwise (fun a b => le a b = true) →
      (insertLe le x l).Pairwise (fun a b => le a b = true)
  | [], _ => by simp [insertLe]
  | y :: ys, h => by
    rw [insertLe]
    by_cases hxy : le x y = true
    · rw [if_pos hxy]
      refine List.Pairwise.cons ?_ h
      intro z hz
      rcases List.mem_cons.mp hz with rfl | hz'
      · exact hxy
      · exact htr x y z hxy (List.rel_of_pairwise_cons h hz')
    · rw [if_neg hxy]
      have hyx : le y x = true := (htot x y).resolve_left hxy
      refine List.Pairwise.cons ?_ (insertLe_pairwise le htot htr x ys h.of_cons)
      intro z hz
      have hz' : z ∈ x :: ys := (insertLe_perm le x ys).mem_iff.mp hz
      rcases List.mem_cons.mp hz' with rfl | hz''
      · exact hyx
      · exact List.rel_of_pairwise_cons h hz''

theorem sortLe_pairwise (le : α → α → Bool)
    (htot : ∀ a b, le a b = true ∨ le b a = true)
    (htr : ∀ a b c, le a b = true → le b c = true → le a c = true) :
    ∀ l : List α, (sortLe le l).Pairwise (fun a b => le a b = true)
  | [] => by simp [sortLe]
  | x :: xs => by
    rw [sortLe]
    exact insertLe_pairwise le htot htr x _ (sortLe_pairwise le htot htr xs)

theorem sorted_perm_eq (le : α → α → Bool)
    (hanti : ∀ a b, le a b = true → le b a = true → a = b) :
    ∀ (l1 l2 : List α), l1.Pairwise (fun a b => le a b = true) →
      l2.Pairwise (fun a b => le a b = true) → l1.Perm l2 → l1 = l2
  | [], l2, _, _, hp => hp.symm.eq_nil.symm
  | a :: t, l2, h1, h2, hp => by
    cases l2 with
    | nil => exact absurd hp.eq_nil (by simp)
    | cons b u =>
      have hba : b ∈ a :: t := hp.mem_iff.mpr (List.mem_cons_self b u)
      have hab : a ∈ b :: u := hp.mem_iff.mp (List.mem_cons_self a t)
      have heq : a = b := by
        rcases List.mem_cons.mp hba with h | hbt
        · exact h.symm
        · rcases List.mem_cons.mp hab with h | hau
          · exact h
          · exact hanti a b (List.rel_of_pairwise_cons h1 hbt)
              (List.rel_of_pairwise_cons h2 hau)
      subst heq
      rw [sorted_perm_eq le hanti t u h1.of_cons h2.of_cons hp.cons_inv]

theorem sorted_perm_eq_keys :
    ∀ (l1 l2 : List (String × PyVal)), l1.Pairwise (fun a b => keyLe a b = true) →
      l2.Pairwise (fun a b => keyLe a b = true) → (l1.map Prod.fst).Nodup →
      l1.Perm l2 → l1 = l2
  | [], l2, _, _, _, hp => hp.symm.eq_nil.symm
  | a :: t, l2, h1, h2, hn, hp => by
    cases l2 with
    | nil => exact absurd hp.eq_nil (by simp)
    | cons b u =>
      have hn' : (a.1 :: t.map Prod.fst).Nodup := by simpa using hn
      have ha1 : a.1 ∉ t.map Prod.fst := (List.nodup_cons.mp hn').1
      have hba : b ∈ a :: t := hp.mem_iff.mpr (List.mem_cons_self b u)
      have hab : a ∈ b :: u := hp.mem_iff.mp (List.mem_cons_self a t)
      have heq : a = b := by
        rcases List.mem_cons.mp hba with h | hbt
        · exact h.symm
        · rcases List.mem_cons.mp hab with h | hau
          · exact h
          · have hk : a.1 = b.1 :=
              strLe_antisymm (List.rel_of_pairwise_cons h1 hbt)
                (List.rel_of_pairwise_cons h2 hau)
            have hmem : b.1 ∈ t.map Prod.fst := List.mem_map.mpr ⟨b, hbt, rfl⟩
            rw [← hk] at hmem
            exact absurd hmem ha1
      subst heq
      rw [sorted_perm_eq_keys t u h1.of_cons h2.of_cons hn'.of_cons hp.cons_inv]

theorem pySortPairs_pairwise (l : List (String × PyVal)) :
    (pySortPairs l).Pairwise (fun a b => keyLe a b = true) :=
  sortLe_pairwise keyLe keyLe_total keyLe_trans l

/-- Sorting by key is invariant under re-enumeration of a dictionary with
distinct keys: the digest does not depend on field order. -/
theorem pySortPairs_orderIndep {l l' : List (String × PyVal)} (hp : l.Perm l')
    (hn : (l.map Prod.fst).Nodup) : pySortPairs l = pySortPairs l' := by
  refine sorted_perm_eq_keys _ _ (pySortPairs_pairwise l) (pySortPairs_pairwise l') ?_ ?_
  · exact (((sortLe_perm keyLe l).map Prod.fst).nodup_iff).mpr hn
  · exact (sortLe_perm keyLe l).trans (hp.trans (sortLe_perm keyLe l').symm)

/-! Helper lemmas about `latestOf` (the `ORDER BY version DESC LIMIT 1`). -/

theorem latestOf_eq_none : ∀ {l : List EnrichedRow}, latestOf l = none ↔ l = [] := by
  intro l
  cases l with
  | nil => simp [latestOf]
  | cons r rs =>
    rw [latestOf]
    cases latestOf rs with
    | none => simp
    | some b => by_cases h : r.version < b.version <;> simp [h]

theorem latestOf_mem : ∀ {l : List EnrichedRow} {b : EnrichedRow},
    latestOf l = some b → b ∈ l := by
  intro l
  induction l with
  | nil => intro b h; simp [latestOf] at h
  | cons x rs ih =>
    intro b h
    cases hrec : latestOf rs with
    | none =>
      rw [latestOf, hrec] at h
      have : x = b := by simpa using h
      simp [← this]
    | some c =>
      rw [latestOf, hrec] at h
      dsimp only at h
      by_cases hv : x.version < c.version
      · rw [if_pos hv] at h
        have hc : c = b := by simpa using h
        exact hc ▸ List.mem_cons_of_mem x (ih hrec)
      · rw [if_neg hv] at h
        have : x = b := by simpa using h
        simp [← this]

theorem latestOf_le : ∀ {l : List EnrichedRow} {b : EnrichedRow},
    latestOf l = some b → ∀ r ∈ l, r.version ≤ b.version := by
  intro l
  induction l with
  | nil => intro b h; simp [latestOf] at h
  | cons x rs ih =>
    intro b h r hr
    cases hrec : latestOf rs with
    | none =>
      rw [latestOf, hrec] at h
      have hx : x = b := by simpa using h
      have hnil : rs = [] := latestOf_eq_none.mp hrec
      subst hnil
      rcases List.mem_cons.mp hr with rfl | hr'
      · exact hx ▸ le_refl _
      · simp at hr'
    | some c =>
      rw [latestOf, hrec] at h
      dsimp only at h
      by_cases hv : x.version < c.version
      · rw [if_pos hv] at h
        have hc : c = b := by simpa using h
        subst hc
        rcases List.mem_cons.mp hr with rfl | hr'
        · exact le_of_lt hv
        · exact ih hrec r hr'
      · rw [if_neg hv] at h
        have hx : x = b := by simpa using h
        subst hx
        rcases List.mem_cons.mp hr with rfl | hr'
        · exact le_refl _
        · exact le_trans (ih hrec r hr') (not_lt.mp hv)

theorem latestOf_append_big {l : List EnrichedRow} {n : EnrichedRow}
    (h : ∀ r ∈ l, r.version < n.version) : latestOf (l ++ [n]) = some n := by
  induction l with
  | nil => simp [latestOf]
  | cons x xs ih =>
    have hx : x.version < n.version := h x (by simp)
    rw [List.cons_append, latestOf, ih (fun r hr => h r (by simp [hr]))]
    dsimp only
    rw [if_pos hx]

theorem latestOf_map {f : EnrichedRow → EnrichedRow}
    (hf : ∀ r, (f r).version = r.version) :
    ∀ l : List EnrichedRow, latestOf (l.map f) = (latestOf l).map f := by
  intro l
  induction l with
  | nil => simp [latestOf]
  | cons x xs ih =>
    rw [List.map_cons, latestOf, ih, latestOf]
    cases latestOf xs with
    | none => simp
    | some b =>
      dsimp only [Option.map_some']
      by_cases hv : x.version < b.version
      · rw [if_pos (by rw [hf, hf]; exact hv), if_pos hv]
        rfl
      · rw [if_neg (by rw [hf, hf]; exact hv), if_neg hv]
        rfl

/-! Helper lemmas about the two fingerprint functions. -/

theorem optStr_inj {a b : Option String} (h : optStr a = optStr b) : a = b := by
  cases a <;> cases b <;> simp [optStr] at h ⊢ <;> exact h

theorem optInt_inj {a b : Option Int} (h : optInt a = optInt b) : a = b := by
  cases a <;> cases b <;> simp [optInt] at h ⊢ <;> exact h

/-- Key-sorted normal form of the Django-path hash input. -/
theorem hash8_sorted (at_ : String) (se ind co re : Option String) (mc : Option Int)
    (cu : Option String) (ia : Bool) :
    calculate_data_hash at_ se ind co re mc cu ia =
      [ ("asset_type", .pystr at_), ("country", optStr co), ("currency", optStr cu)
      , ("industry", optStr ind), ("is_active", .pybool ia), ("market_cap", optInt mc)
      , ("region", optStr re), ("sector", optStr se) ] := rfl

/-- Key-sorted normal form of the batch-path hash input. -/
theorem hash6_sorted (a : AnalysisData) :
    batchDataHash a =
      [ ("asset_type", optStr a.asset_type), ("company_name", optStr a.company_name)
      , ("country", optStr a.country), ("industry", optStr a.industry)
      , ("market_cap", optInt a.market_cap), ("sector", optStr a.sector) ] := rfl

/-- C9: every quality-score computation in the system returns a value in
[0, 1] — the batch scorer's weighted sum divided by the maximum attainable
10.0, and the model's completeness score of filled fields divided by 12. -/
theorem c9_quality_scores_bounded :
    (∀ a : AnalysisData,
      0 ≤ calculate_quality_score a ∧ calculate_quality_score a ≤ 1) ∧
    (∀ r : EnrichedRow,
      0 ≤ data_completeness_score r ∧ data_completeness_score r ≤ 1) := by
  have haux : ∀ (bl : List Bool), bl.length ≤ 12 →
      0 ≤ mkRat (bl.countP id) 12 ∧ mkRat (bl.countP id) 12 ≤ 1 := by
    intro bl h
    constructor
    · rw [Rat.mkRat_eq_div]
      positivity
    · rw [Rat.mkRat_eq_div, div_le_one (by norm_num)]
      have hc := le_trans (List.countP_le_length id) h
      exact_mod_cast hc
  constructor
  · intro a
    simp only [calculate_quality_score]
    constructor
    · refine le_min ?_ (by norm_num)
      refine div_nonneg ?_ (by norm_num)
      repeat' refine add_nonneg ?_ ?_
      all_goals split
      all_goals decide
    · exact min_le_right _ _
  · intro r
    simpa only [data_completeness_score] using
      haux [ truthyS r.company_name, !(r.asset_type == "OTHER"), truthyS r.sector
           , truthyS r.industry, truthyS r.sector_key, truthyS r.country
           , truthyS r.region, truthyI r.market_cap, truthyS r.currency
           , !(r.data_source == ""), r.fetch_success, errsEmpty r.fetch_errors ]
        (by simp)

/-- C4 (code-bug evidence): `first_loaded_at` is not immutable on the Django
model path — `auto_now_add` stamps every new version row with its own
creation time, so upserting "ABC" at time 0 and again (with changed data) at
time 5 gives version 2 the value 5 instead of version 1's 0; the batch SQL
path, evaluated on the same inputs, does propagate version 1's value. -/
theorem c4_first_loaded_at_bug :
    ((create_new_version
        ((create_new_version { listing := [], rows := [] } "ABC"
            { sector := some "Tech", market_cap := some 1000 } 0).2)
        "ABC" { sector := some "Healthcare", market_cap := some 1000 } 5).2).rows.map
      (fun r => (r.version, r.first_loaded_at)) = [(1, 0), (2, 5)] ∧
    ((update_enriched_data
        (update_enriched_data { listing := [], rows := [] } "ABC"
          { sector := some "Tech", market_cap := some 1000 } 0)
        "ABC" { sector := some "Healthcare", market_cap := some 1000 } 5).rows.map
      (fun r => (r.version, r.first_loaded_at)) = [(1, 0), (2, 0)]) := by
  decide

/-- C6 counterexample: with a rate-limit error on every attempt the retry
loop of `comprehensive_ticker_analysis` sleeps exactly twice — 10 s and
20 s — between its three attempts; the claimed third sleep of about 40 s
never happens, because the loop only sleeps while `attempt <
max_retries - 1`. -/
theorem c6_backoff_counterexample :
    (analysisRetry (fun _ => .infoExn "429 Too Many Requests")).sleeps = [10, 20] ∧
    (analysisRetry (fun _ => .infoExn "429 Too Many Requests")).sleeps ≠ [10, 20, 40] := by
  decide

/-- One 429 attempt with retries left: sleep `(2 ** attempt) * 10` seconds
and continue. -/
theorem fetchInfoLoop_429_step (attempts : Nat → AttemptOutcome) (attempt rem : Nat)
    (acc : LoopResult) (msg : String) (hatt : attempts attempt = .infoExn msg)
    (h404 : is404Msg msg = false) (h429 : is429Msg msg = true) :
    fetchInfoLoop attempts attempt (rem + 2) acc =
      fetchInfoLoop attempts (attempt + 1) (rem + 1)
        { acc with sleeps := acc.sleeps ++ [2 ^ attempt * 10] } := by
  rw [fetchInfoLoop, hatt]
  simp [h404, h429]

/-- A 429 on the final attempt: record `RATE_LIMIT_EXCEEDED` and stop. -/
theorem fetchInfoLoop_429_last (attempts : Nat → AttemptOutcome) (attempt : Nat)
    (acc : LoopResult) (msg : String) (hatt : attempts attempt = .infoExn msg)
    (h404 : is404Msg msg = false) (h429 : is429Msg msg = true) :
    fetchInfoLoop attempts attempt 1 acc =
      { acc with fetch_errors := acc.fetch_errors ++ ["RATE_LIMIT_EXCEEDED"],
                 fetch_success := false } := by
  rw [show (1 : Nat) = 0 + 1 from rfl, fetchInfoLoop, hatt]
  simp [h404, h429]

/-- C6 (amended): when the provider raises a rate-limit error on every
attempt, the retry loop makes at most 3 attempts, sleeping
`10 × 2^attempt` seconds between attempts — 10 s then 20 s, two sleeps for
three attempts, never 40 s — then records the error tag
`RATE_LIMIT_EXCEEDED` with `fetch_success = false` and no 404 flag, and the
recorded error list carries no `404_NOT_FOUND` tag, so a row stored from
this result is not quarantined by the staleness selector. -/
theorem c6_backoff_amended (msgs : Nat → String)
    (h : ∀ n, n < 3 → is429Msg (msgs n) = true ∧ is404Msg (msgs n) = false) :
    (analysisRetry (fun n => .infoExn (msgs n))).sleeps = [10, 20] ∧
    (analysisRetry (fun n => .infoExn (msgs n))).fetch_errors = ["RATE_LIMIT_EXCEEDED"] ∧
    (analysisRetry (fun n => .infoExn (msgs n))).fetch_success = false ∧
    (analysisRetry (fun n => .infoExn (msgs n))).is_404_failed = false ∧
    errsHave404 (some (analysisRetry (fun n => .infoExn (msgs n))).fetch_errors) = false := by
  obtain ⟨h0a, h0b⟩ := h 0 (by norm_num)
  obtain ⟨h1a, h1b⟩ := h 1 (by norm_num)
  obtain ⟨h2a, h2b⟩ := h 2 (by norm_num)
  have hres : analysisRetry (fun n => .infoExn (msgs n)) =
      { fetch_success := false, fetch_errors := ["RATE_LIMIT_EXCEEDED"],
        is_404_failed := false, sleeps := [10, 20] } := by
    unfold analysisRetry
    rw [show (3 : Nat) = 1 + 2 from rfl,
      fetchInfoLoop_429_step _ 0 1 _ (msgs 0) rfl h0b h0a,
      show (1 + 1 : Nat) = 0 + 2 from rfl,
      fetchInfoLoop_429_step _ 1 0 _ (msgs 1) rfl h1b h1a,
      fetchInfoLoop_429_last _ 2 _ (msgs 2) rfl h2b h2a]
    rfl
  rw [hres]
  refine ⟨rfl, rfl, rfl, rfl, by decide⟩

/-- C6 witness: the amended backoff theorem applied to the concrete message
"429 Too Many Requests" on every attempt. -/
theorem c6_backoff_witness :
    (analysisRetry (fun _ => .infoExn "429 Too Many Requests")).sleeps = [10, 20] ∧
    (analysisRetry (fun _ => .infoExn "429 Too Many Requests")).fetch_errors =
      ["RATE_LIMIT_EXCEEDED"] ∧
    (analysisRetry (fun _ => .infoExn "429 Too Many Requests")).fetch_success = false ∧
    (analysisRetry (fun _ => .infoExn "429 Too Many Requests")).is_404_failed = false ∧
    errsHave404
      (some (analysisRetry (fun _ => .infoExn "429 Too Many Requests")).fetch_errors) =
      false := by
  have h429 : is429Msg "429 Too Many Requests" = true := by decide
  have h404 : is404Msg "429 Too Many Requests" = false := by decide
  exact c6_backoff_amended (fun _ => "429 Too Many Requests") (fun _ _ => ⟨h429, h404⟩)

/-- C3 counterexample: the fingerprint is not a function of "exactly the
nine fields" on either path — changing the company name alone leaves the
Django-path digest unchanged, and changing the region alone leaves the
batch-path digest unchanged. -/
theorem c3_nine_fields_counterexample :
    modelFieldsHash {} = modelFieldsHash { company_name := some "Acme" } ∧
    ({} : ModelFields).company_name ≠
      ({ company_name := some "Acme" } : ModelFields).company_name ∧
    batchDataHash {} = batchDataHash { region := some "Europe" } ∧
    ({} : AnalysisData).region ≠ ({ region := some "Europe" } : AnalysisData).region := by
  refine ⟨rfl, by simp, rfl, by simp⟩

/-- C3 (amended): each upsert path's digest is a function of exactly its own
hashed field set — the Django model path hashes the eight fields {asset
type, sector, industry, country, region, market cap, currency, active flag}
(company name is not hashed), the batch SQL path hashes the six fields
{asset type, sector, industry, country, market cap, company name} (region,
currency and active flag are not hashed): two inputs agreeing on the
respective set always get the identical digest, changing any field of the
respective set changes the hashed input, and both digests are independent
of the enumeration order of the field dictionary. -/
theorem c3_hash_fields_amended :
    (∀ d d' : ModelFields, modelFieldsHash d = modelFieldsHash d' ↔
      (d.asset_type = d'.asset_type ∧ d.sector = d'.sector ∧ d.industry = d'.industry ∧
       d.country = d'.country ∧ d.region = d'.region ∧ d.market_cap = d'.market_cap ∧
       d.currency = d'.currency ∧ d.is_active = d'.is_active)) ∧
    (∀ a a' : AnalysisData, batchDataHash a = batchDataHash a' ↔
      (a.asset_type = a'.asset_type ∧ a.sector = a'.sector ∧ a.industry = a'.industry ∧
       a.country = a'.country ∧ a.market_cap = a'.market_cap ∧
       a.company_name = a'.company_name)) ∧
    (∀ l l' : List (String × PyVal), l.Perm l' → (l.map Prod.fst).Nodup →
      pySortPairs l = pySortPairs l') := by
  refine ⟨?_, ?_, fun l l' hp hn => pySortPairs_orderIndep hp hn⟩
  · intro d d'
    constructor
    · intro h
      rw [modelFieldsHash, modelFieldsHash, hash8_sorted, hash8_sorted] at h
      simp only [List.cons.injEq, Prod.mk.injEq, true_and, and_true] at h
      obtain ⟨h1, h2, h3, h4, h5, h6, h7, h8⟩ := h
      exact ⟨PyVal.pystr.inj h1, optStr_inj h8, optStr_inj h4, optStr_inj h2,
        optStr_inj h7, optInt_inj h6, optStr_inj h3, PyVal.pybool.inj h5⟩
    · rintro ⟨h1, h2, h3, h4, h5, h6, h7, h8⟩
      rw [modelFieldsHash, modelFieldsHash, h1, h2, h3, h4, h5, h6, h7, h8]
  · intro a a'
    constructor
    · intro h
      rw [hash6_sorted, hash6_sorted] at h
      simp only [List.cons.injEq, Prod.mk.injEq, true_and, and_true] at h
      obtain ⟨h1, h2, h3, h4, h5, h6⟩ := h
      exact ⟨optStr_inj h1, optStr_inj h6, optStr_inj h4, optStr_inj h3,
        optInt_inj h5, optStr_inj h2⟩
    · rintro ⟨h1, h2, h3, h4, h5, h6⟩
      rw [batchDataHash, batchDataHash, h1, h2, h3, h4, h5, h6]

/-- C3 witness: the amended theorem's order-independence part applied to a
concrete two-entry dictionary and its transposition. -/
theorem c3_hash_fields_witness :
    pySortPairs [("b", PyVal.pynone), ("a", PyVal.pyint 1)] =
      pySortPairs [("a", PyVal.pyint 1), ("b", PyVal.pynone)] :=
  c3_hash_fields_amended.2.2 _ _ (List.Perm.swap _ _ _) (by decide)

/-- Every branch of the fetch cycle, including the sector-analysis fallback
and the exception handler, marks its response `from_database = false`. -/
theorem fetch_from_api_from_database (symbol : String) (outcome : FetchOutcome)
    (fallback : SectorResult) :
    (fetch_from_api symbol outcome fallback).from_database = false := by
  cases outcome with
  | raised msg => rfl
  | got i =>
    simp only [fetch_from_api]
    split
    · split
      · rfl
      · rfl
    · rfl

/-- C10: on the on-demand lookup path a fetched result is persisted to the
Version Store only when its success flag is true — extraction marks success
exactly when the computed quality score exceeds 0.2 — and for every fetch
whose result has `success = false`, `get_ticker_info` leaves the Version
Store completely unchanged (no new row and no timestamp touch). -/
theorem c10_store_gate :
    (∀ (symbol : String) (i : ApiInfo),
      (extract_comprehensive_api_data symbol i).success = true ↔
        mkRat 1 5 < (extract_comprehensive_api_data symbol i).data_quality_score.getD 0) ∧
    (∀ (st : Store) (symbol : String) (force_refresh : Bool) (outcome : FetchOutcome)
        (fallback : SectorResult) (now : Int),
      (fetch_from_api (upStr symbol) outcome fallback).success = false →
      (get_ticker_info st symbol force_refresh outcome fallback now).2 = st) := by
  constructor
  · intro symbol i
    simp [extract_comprehensive_api_data]
  · intro st symbol force_refresh outcome fallback now h
    rcases hdb : get_from_database st (upStr symbol) now with _ | db <;>
      cases force_refresh <;> simp [get_ticker_info, h, hdb]

/-- C8: with `force_refresh = false`, `get_ticker_info` returns the stored
record (`from_database = true`) exactly when a latest version exists whose
fetch succeeded and whose `last_checked_at` is within the 7-day freshness
window — in that case the response is the converted latest row and the
store is untouched; otherwise the response is the single fetch cycle's
result with `from_database = false`, and a fetch-path exception still
yields a structured response with `success = false` and the diagnostic
message instead of raising. -/
theorem c8_cache_first_lookup (st : Store) (symbol : String) (outcome : FetchOutcome)
    (fallback : SectorResult) (now : Int) :
    ((get_ticker_info st symbol false outcome fallback now).1.from_database = true ↔
      (∃ l, get_latest_version st (upStr symbol) = some l ∧ l.fetch_success = true ∧
        is_stale l now = false)) ∧
    (∀ l, get_latest_version st (upStr symbol) = some l → l.fetch_success = true →
      is_stale l now = false →
      (get_ticker_info st symbol false outcome fallback now).1 = convert_to_api_format l ∧
      (get_ticker_info st symbol false outcome fallback now).2 = st) ∧
    ((get_ticker_info st symbol false outcome fallback now).1.from_database = false →
      (get_ticker_info st symbol false outcome fallback now).1 =
        fetch_from_api (upStr symbol) outcome fallback) ∧
    (∀ msg, outcome = .raised msg →
      (get_ticker_info st symbol false outcome fallback now).1.from_database = false →
      (get_ticker_info st symbol false outcome fallback now).1.success = false ∧
      (get_ticker_info st symbol false outcome fallback now).1.error = some msg) := by
  by_cases hgood : ∃ l, get_latest_version st (upStr symbol) = some l ∧
      l.fetch_success = true ∧ is_stale l now = false
  · obtain ⟨l0, hl, hf, hst⟩ := hgood
    have hdb : get_from_database st (upStr symbol) now = some (convert_to_api_format l0) := by
      simp [get_from_database, hl, hst, hf]
    have hres : get_ticker_info st symbol false outcome fallback now =
        (convert_to_api_format l0, st) := by
      simp [get_ticker_info, hdb]
    refine ⟨?_, ?_, ?_, ?_⟩
    · rw [hres]
      exact iff_of_true rfl ⟨l0, hl, hf, hst⟩
    · intro l hl' hf' hst'
      rw [hl] at hl'
      have : l0 = l := by simpa using hl'
      subst this
      exact ⟨by rw [hres], by rw [hres]⟩
    · intro hcontra
      rw [hres] at hcontra
      simp [convert_to_api_format] at hcontra
    · intro msg _ hcontra
      rw [hres] at hcontra
      simp [convert_to_api_format] at hcontra
  · have hdb : get_from_database st (upStr symbol) now = none := by
      rcases hl : get_latest_version st (upStr symbol) with _ | l0
      · simp [get_from_database, hl]
      · simp only [get_from_database, hl]
        by_cases hst : is_stale l0 now
        · simp [hst]
        · by_cases hf : l0.fetch_success
          · exact absurd ⟨l0, hl, hf, by simpa using hst⟩ hgood
          · simp [hst, hf]
    have hres : (get_ticker_info st symbol false outcome fallback now).1 =
        fetch_from_api (upStr symbol) outcome fallback := by
      simp only [get_ticker_info, hdb]
      split <;> split <;> rfl
    refine ⟨?_, ?_, ?_, ?_⟩
    · rw [hres, fetch_from_api_from_database]
      simp only [Bool.false_eq_true, false_iff]
      exact hgood
    · intro l hl' hf' hst'
      exact absurd ⟨l, hl', hf', hst'⟩ hgood
    · intro _
      exact hres
    · intro msg hmsg _
      subst hmsg
      rw [hres]
      exact ⟨rfl, rfl⟩

/-- C10 witness: the store gate applied to a concrete failing fetch on the
empty store. -/
theorem c10_store_gate_witness :
    (get_ticker_info { listing := [], rows := [] } "ZZZ" false (.raised "boom") {} 0).2 =
      { listing := [], rows := [] } :=
  c10_store_gate.2 { listing := [], rows := [] } "ZZZ" false (.raised "boom") {} 0
    (by decide)

/-- C8 witness: the cache-first lookup applied to a store holding fresh
successful data for AAPL serves that row and leaves the store untouched. -/
theorem c8_cache_first_witness :
    (get_ticker_info c8store "AAPL" false (.got {}) {} 100).1 =
      convert_to_api_format c8row ∧
    (get_ticker_info c8store "AAPL" false (.got {}) {} 100).2 = c8store :=
  (c8_cache_first_lookup c8store "AAPL" (.got {}) {} 100).2.1 c8row (by decide) (by decide)
    (by decide)

/-- Filtering commutes with a row map that leaves the filtered predicate
unchanged (touch updates preserve the symbol column). -/
theorem filter_map_stable {f : EnrichedRow → EnrichedRow} {q : EnrichedRow → Bool}
    (h : ∀ r, q (f r) = q r) (l : List EnrichedRow) :
    (l.map f).filter q = (l.filter q).map f := by
  rw [List.filter_map]
  congr 1
  exact List.filter_congr (fun r _ => h r)

/-- After any `create_new_version` call the symbol's latest stored row
carries exactly the fingerprint of the data just upserted. -/
theorem create_latest_hash (st : Store) (sym : String) (d : ModelFields) (now : Int) :
    ∃ l, get_latest_version (create_new_version st sym d now).2 sym = some l ∧
      l.data_hash = modelFieldsHash d := by
  by_cases hch : has_data_changed st sym d
  · cases hl0 : get_latest_version st sym with
    | none =>
      refine ⟨rowOfModelFields sym 1 d now, ?_, rfl⟩
      have hbranch : (create_new_version st sym d now).2 =
          { st with rows := st.rows ++ [rowOfModelFields sym 1 d now] } := by
        simp only [create_new_version, hch, if_true, hl0]
      rw [hbranch]
      have hfil : st.rows.filter (fun r => r.symbol == upStr sym) = [] :=
        latestOf_eq_none.mp hl0
      unfold get_latest_version
      rw [List.filter_append, hfil]
      have hnew : [rowOfModelFields sym 1 d now].filter
          (fun r => r.symbol == upStr sym) = [rowOfModelFields sym 1 d now] := by
        simp [rowOfModelFields]
      rw [hnew]
      exact latestOf_append_big (by simp)
    | some l0 =>
      refine ⟨rowOfModelFields sym (l0.version + 1) d now, ?_, rfl⟩
      have hbranch : (create_new_version st sym d now).2 =
          { st with rows := st.rows ++ [rowOfModelFields sym (l0.version + 1) d now] } := by
        simp only [create_new_version, hch, if_true, hl0]
      rw [hbranch]
      unfold get_latest_version
      rw [List.filter_append]
      have hnew : [rowOfModelFields sym (l0.version + 1) d now].filter
          (fun r => r.symbol == upStr sym) = [rowOfModelFields sym (l0.version + 1) d now] := by
        simp [rowOfModelFields]
      rw [hnew]
      apply latestOf_append_big
      intro r hr
      have hle := latestOf_le hl0 r hr
      simp only [rowOfModelFields]
      omega
  · cases hl0 : get_latest_version st sym with
    | none => exact absurd (by simp [has_data_changed, hl0]) hch
    | some l0 =>
      have hbeq : (l0.data_hash == modelFieldsHash d) = true := by
        by_contra hne
        exact hch (by simp [has_data_changed, hl0, Bool.not_eq_true _ ▸ hne])
      have hhash : l0.data_hash = modelFieldsHash d := beq_iff_eq.mp hbeq
      refine ⟨{ l0 with last_checked_at := now }, ?_, by simpa using hhash⟩
      have hbranch : (create_new_version st sym d now).2 =
          { st with rows :=
              st.rows.map (fun r =>
                if r = l0 then { l0 with last_checked_at := now } else r) } := by
        simp only [create_new_version, hch, if_false, hl0]
        rfl
      rw [hbranch]
      unfold get_latest_version
      rw [filter_map_stable (fun r => by by_cases hr : r = l0 <;> simp [hr])]
      rw [latestOf_map (fun r => by by_cases hr : r = l0 <;> simp [hr])]
      have hl0' : latestOf (st.rows.filter (fun r => r.symbol == upStr sym)) = some l0 := hl0
      rw [hl0']
      simp

/-- C2: calling the Version Store upsert twice with identical fields
creates exactly one version row — the second call creates no row
(`created = false`, row count unchanged), returns the existing latest row
with only `last_checked_at` advanced, and rewrites the table only by that
single-column touch of the latest row; starting from a symbol with no
stored version, the first call inserts (`created = true`) and after both
calls exactly one row for the symbol exists. -/
theorem c2_upsert_idempotent (st : Store) (sym : String) (d : ModelFields)
    (now1 now2 : Int) :
    (create_new_version (create_new_version st sym d now1).2 sym d now2).1.2 = false ∧
    (create_new_version (create_new_version st sym d now1).2 sym d now2).2.rows.length =
      (create_new_version st sym d now1).2.rows.length ∧
    (∀ l, get_latest_version (create_new_version st sym d now1).2 sym = some l →
      (create_new_version (create_new_version st sym d now1).2 sym d now2).1.1 =
        some { l with last_checked_at := now2 } ∧
      (create_new_version (create_new_version st sym d now1).2 sym d now2).2.rows =
        (create_new_version st sym d now1).2.rows.map
          (fun r => if r = l then { l with last_checked_at := now2 } else r)) ∧
    ((st.rows.filter (fun r => r.symbol == upStr sym)).isEmpty = true →
      ((create_new_version (create_new_version st sym d now1).2 sym d now2).2.rows.filter
        (fun r => r.symbol == upStr sym)).length = 1 ∧
      (create_new_version st sym d now1).1.2 = true) := by
  obtain ⟨l1, hl1, hh1⟩ := create_latest_hash st sym d now1
  set st1 := (create_new_version st sym d now1).2 with hst1
  have hch2 : ¬ has_data_changed st1 sym d = true := by
    simp [has_data_changed, hl1, hh1]
  have hbranch2 : create_new_version st1 sym d now2 =
      ((some { l1 with last_checked_at := now2 }, false),
        { st1 with rows :=
            st1.rows.map (fun r =>
              if r = l1 then { l1 with last_checked_at := now2 } else r) }) := by
    simp only [create_new_version, hch2, if_false, hl1]
    rfl
  refine ⟨by rw [hbranch2], by rw [hbranch2]; exact List.length_map _ _, ?_, ?_⟩
  · intro l hl
    rw [hl1] at hl
    have hll : l1 = l := by simpa using hl
    subst hll
    exact ⟨by rw [hbranch2], by rw [hbranch2]⟩
  · intro hemp
    have hfil : st.rows.filter (fun r => r.symbol == upStr sym) = [] :=
      List.isEmpty_iff.mp hemp
    have hl0 : get_latest_version st sym = none := by
      unfold get_latest_version
      rw [hfil]
      rfl
    have hch1 : has_data_changed st sym d = true := by
      simp [has_data_changed, hl0]
    have hbranch1 : create_new_version st sym d now1 =
        ((some (rowOfModelFields sym 1 d now1), true),
          { st with rows := st.rows ++ [rowOfModelFields sym 1 d now1] }) := by
      simp only [create_new_version, hch1, if_true, hl0]
    have hst1' : st1 = { st with rows := st.rows ++ [rowOfModelFields sym 1 d now1] } := by
      rw [hst1, hbranch1]
    constructor
    · rw [hbranch2, hst1']
      have hq : ∀ r : EnrichedRow,
          ((if r = l1 then { l1 with last_checked_at := now2 } else r).symbol ==
            upStr sym) = (r.symbol == upStr sym) := by
        intro r
        by_cases hr : r = l1 <;> simp [hr]
      rw [filter_map_stable hq, List.filter_append, hfil]
      have hnew : [rowOfModelFields sym 1 d now1].filter
          (fun r => r.symbol == upStr sym) = [rowOfModelFields sym 1 d now1] := by
        simp [rowOfModelFields]
      rw [hnew]
      simp
    · rw [hbranch1]

/-- C2 witness: the idempotence theorem applied to a double upsert of the
same sector field for ABC on the empty store. -/
theorem c2_upsert_witness :
    ((create_new_version (create_new_version { listing := [], rows := [] } "ABC"
        { sector := some "Tech" } 7).2 "ABC" { sector := some "Tech" } 8).1.2 = false) ∧
    (((create_new_version (create_new_version { listing := [], rows := [] } "ABC"
        { sector := some "Tech" } 7).2 "ABC" { sector := some "Tech" } 8).2.rows.filter
        (fun r => r.symbol == upStr "ABC")).length = 1) ∧
    ((create_new_version { listing := [], rows := [] } "ABC"
        { sector := some "Tech" } 7).1.2 = true) := by
  obtain h := c2_upsert_idempotent { listing := [], rows := [] } "ABC"
    { sector := some "Tech" } 7 8
  exact ⟨h.1, (h.2.2.2 (by decide)).1, (h.2.2.2 (by decide)).2⟩

/-- Both upsert paths preserve an existing 404-tagged row: a touch changes
only `last_checked_at` and an insert appends. -/
theorem applyOp_keeps_404 {st : Store} {u : String}
    (h : ∃ r ∈ st.rows, upStr r.symbol = u ∧ rowHas404 r = true) (op : Op) :
    ∃ r ∈ (applyOp st op).rows, upStr r.symbol = u ∧ rowHas404 r = true := by
  obtain ⟨r, hr, hsym, h404⟩ := h
  cases op with
  | batch s a t =>
    simp only [applyOp, update_enriched_data]
    cases hl : latestOf (st.rows.filter (sqlMatches s)) with
    | none =>
      exact ⟨r, by simp [hr], hsym, h404⟩
    | some ex =>
      dsimp only
      by_cases hh : (ex.data_hash == batchDataHash a) = true
      · rw [if_pos hh]
        refine ⟨if sqlMatches s r && r.version == ex.version
            then { r with last_checked_at := t } else r,
          List.mem_map_of_mem _ hr, ?_, ?_⟩
        · by_cases hc : (sqlMatches s r && r.version == ex.version) = true <;>
            simp [hc, hsym]
        · by_cases hc : (sqlMatches s r && r.version == ex.version) = true
          · simp only [if_pos hc]
            exact h404
          · simp only [if_neg hc]
            exact h404
      · rw [if_neg hh]
        exact ⟨r, by simp [hr], hsym, h404⟩
  | django s dta t =>
    simp only [applyOp, create_new_version]
    by_cases hch : has_data_changed st s dta = true
    · rw [if_pos hch]
      exact ⟨r, by simp [hr], hsym, h404⟩
    · rw [if_neg hch]
      cases hl : get_latest_version st s with
      | none => exact ⟨r, hr, hsym, h404⟩
      | some l0 =>
        refine ⟨if r = l0 then { l0 with last_checked_at := t } else r,
          List.mem_map_of_mem _ hr, ?_, ?_⟩
        · by_cases hc : r = l0
          · subst hc
            simp [hsym]
          · simp [hc, hsym]
        · by_cases hc : r = l0
          · subst hc
            simp only [if_pos rfl]
            exact h404
          · simp only [if_neg hc]
            exact h404

/-- A whole write sequence preserves an existing 404-tagged row. -/
theorem applyOps_keeps_404 {u : String} :
    ∀ (ops : List Op) (st : Store),
      (∃ r ∈ st.rows, upStr r.symbol = u ∧ rowHas404 r = true) →
      ∃ r ∈ (applyOps st ops).rows, upStr r.symbol = u ∧ rowHas404 r = true
  | [], _, h => h
  | op :: rest, st, h =>
    applyOps_keeps_404 rest (applyOp st op) (applyOp_keeps_404 h op)

/-- The staleness selector never returns a symbol for which some stored row
carries the 404 tag (the `NOT EXISTS e3` subquery). -/
theorem quarantined_excludes {st : Store} {u : String}
    (h : ∃ r ∈ st.rows, upStr r.symbol = u ∧ rowHas404 r = true)
    (days limit : Nat) (min_quality : ℚ) (now : Int) :
    u ∉ get_stale_tickers st days limit min_quality now := by
  obtain ⟨r, hr, hsym, h404⟩ := h
  intro hmem
  unfold get_stale_tickers at hmem
  obtain ⟨l, hl, hup⟩ := List.mem_map.mp hmem
  have hl2 : l ∈ sortLe strLe ((keptRows st days min_quality now).map Prod.fst).dedup :=
    List.take_subset _ _ hl
  have hl3 : l ∈ ((keptRows st days min_quality now).map Prod.fst).dedup :=
    (sortLe_perm strLe _).mem_iff.mp hl2
  have hl4 : l ∈ (keptRows st days min_quality now).map Prod.fst := List.mem_dedup.mp hl3
  obtain ⟨p, hp, hpl⟩ := List.mem_map.mp hl4
  have hkept := (List.mem_filter.mp hp).2
  simp only [whereClause, Bool.and_eq_true, Bool.not_eq_true'] at hkept
  have hq : quarantined st p.1 = false := hkept.2
  have hqt : quarantined st p.1 = true := by
    unfold quarantined
    rw [List.any_eq_true]
    refine ⟨r, hr, ?_⟩
    rw [Bool.and_eq_true]
    refine ⟨?_, h404⟩
    have hpu : upStr p.1 = u := by rw [hpl, hup]
    simp [sqlMatches, hsym, hpu]
  rw [hqt] at hq
  exact absurd hq (by simp)

/-- C1: once any version row for a symbol carries the `404_NOT_FOUND` tag in
its `fetch_errors`, the symbol never appears in the staleness selector's
output, for any freshness window, quality threshold or limit, and
regardless of any later batch or Django upserts stored for it. -/
theorem c1_quarantine_permanent (st : Store) (S : String) (ops : List Op)
    (days limit : Nat) (min_quality : ℚ) (now : Int)
    (h : ∃ r ∈ st.rows, upStr r.symbol = upStr S ∧ tag404 ∈ r.fetch_errors.getD []) :
    upStr S ∉ get_stale_tickers (applyOps st ops) days limit min_quality now := by
  have h' : ∃ r ∈ st.rows, upStr r.symbol = upStr S ∧ rowHas404 r = true := by
    obtain ⟨r, hr, hsym, htag⟩ := h
    refine ⟨r, hr, hsym, ?_⟩
    unfold rowHas404 errsHave404
    cases herr : r.fetch_errors with
    | none => rw [herr] at htag; simp at htag
    | some errs =>
      rw [herr] at htag
      simp only [Option.getD_some] at htag
      rw [List.any_eq_true]
      exact ⟨tag404, htag, by decide⟩
  exact quarantined_excludes (applyOps_keeps_404 ops st h') days limit min_quality now

/-- C1 witness: the quarantine theorem applied to a store where DEAD already
has a 404-tagged row, followed by one batch and one Django write for DEAD. -/
theorem c1_quarantine_witness :
    upStr "DEAD" ∉ get_stale_tickers (applyOps c1store c1ops) 7 100 (mkRat 4 5) 100 :=
  c1_quarantine_permanent c1store "DEAD" c1ops 7 100 (mkRat 4 5) 100
    ⟨q404Row "DEAD", by decide, by decide, by decide⟩

/-- The running maximum stays below any common upper bound. -/
theorem foldl_max_le : ∀ (l : List EnrichedRow) (m0 K : Nat), m0 ≤ K →
    (∀ r ∈ l, r.version ≤ K) → l.foldl (fun m r => max m r.version) m0 ≤ K
  | [], _, _, h0, _ => h0
  | x :: xs, m0, K, h0, h => by
    rw [List.foldl_cons]
    exact foldl_max_le xs _ K (Nat.max_le.mpr ⟨h0, h x (by simp)⟩)
      (fun r hr => h r (by simp [hr]))

/-- The running maximum dominates its initial value. -/
theorem le_foldl_max_init : ∀ (l : List EnrichedRow) (m0 : Nat),
    m0 ≤ l.foldl (fun m r => max m r.version) m0
  | [], _ => le_refl _
  | x :: xs, m0 => by
    rw [List.foldl_cons]
    exact le_trans (Nat.le_max_left _ _) (le_foldl_max_init xs _)

/-- The running maximum dominates every element. -/
theorem le_foldl_max : ∀ (l : List EnrichedRow) (m0 : Nat) (r : EnrichedRow), r ∈ l →
    r.version ≤ l.foldl (fun m r => max m r.version) m0
  | [], _, r, hr => by simp at hr
  | x :: xs, m0, r, hr => by
    rw [List.foldl_cons]
    rcases List.mem_cons.mp hr with rfl | hr'
    · exact le_trans (Nat.le_max_right _ _) (le_foldl_max_init xs _)
    · exact le_foldl_max xs _ r hr'

/-- When a symbol's stored versions are exactly 1..k, `MAX(version)` is k. -/
theorem maxVersion_of_range {st : Store} {s : String} {k : Nat}
    (h : (st.rows.filter (sqlMatches s)).map (fun r => r.version) = List.range' 1 k) :
    maxVersion st s = k := by
  unfold maxVersion
  have hle : ∀ r ∈ st.rows.filter (sqlMatches s), r.version ≤ k := by
    intro r hr
    have hm : r.version ∈ (st.rows.filter (sqlMatches s)).map (fun r => r.version) :=
      List.mem_map_of_mem _ hr
    rw [h] at hm
    obtain ⟨i, hi, hv⟩ := List.mem_range'.mp hm
    omega
  have h1 := foldl_max_le (st.rows.filter (sqlMatches s)) 0 k (Nat.zero_le k) hle
  cases k with
  | zero =>
    have hnil : st.rows.filter (sqlMatches s) = [] :=
      List.map_eq_nil.mp (by rw [h]; rfl)
    rw [hnil]
    rfl
  | succ k' =>
    have hk : (k' + 1) ∈ (st.rows.filter (sqlMatches s)).map (fun r => r.version) := by
      rw [h, List.mem_range']
      exact ⟨k', by omega, by omega⟩
    obtain ⟨r, hr, hv⟩ := List.mem_map.mp hk
    have h2 := le_foldl_max (st.rows.filter (sqlMatches s)) 0 r hr
    omega

/-- When the stored versions are exactly 1..k+1, the latest row carries
version k+1. -/
theorem latestOf_version_of_range {l : List EnrichedRow} {k : Nat}
    (h : l.map (fun r => r.version) = List.range' 1 (k + 1)) :
    ∃ b, latestOf l = some b ∧ b.version = k + 1 := by
  have hne : l ≠ [] := by
    intro hl
    rw [hl] at h
    exact absurd (List.range'_eq_nil.mp h.symm) (by omega)
  cases hlat : latestOf l with
  | none => exact absurd (latestOf_eq_none.mp hlat) hne
  | some b =>
    refine ⟨b, rfl, ?_⟩
    have hb : b ∈ l := latestOf_mem hlat
    have hbv : b.version ∈ List.range' 1 (k + 1) := by
      rw [← h]
      exact List.mem_map_of_mem _ hb
    obtain ⟨i, hi, hiv⟩ := List.mem_range'.mp hbv
    have hkmem : (k + 1) ∈ l.map (fun r => r.version) := by
      rw [h, List.mem_range']
      exact ⟨k, by omega, by omega⟩
    obtain ⟨r, hr, hv⟩ := List.mem_map.mp hkmem
    have hrle := latestOf_le hlat r hr
    omega

/-- Appending a row with version k+1 for the symbol extends the version
range 1..k to 1..k+1 and keeps the symbol-normalization invariant. -/
theorem insert_step {st : Store} {s : String} {k : Nat} (hs : upStr s = s)
    (hinv1 : ∀ r ∈ st.rows, upStr r.symbol = s → r.symbol = s)
    (hinv2 : (st.rows.filter (sqlMatches s)).map (fun r => r.version) = List.range' 1 k)
    (new : EnrichedRow) (hsym : new.symbol = upStr s) (hver : new.version = k + 1) :
    (∀ r ∈ st.rows ++ [new], upStr r.symbol = s → r.symbol = s) ∧
    ((st.rows ++ [new]).filter (sqlMatches s)).map (fun r => r.version) =
      List.range' 1 (k + 1) := by
  constructor
  · intro r hr hup
    rcases List.mem_append.mp hr with hr' | hr'
    · exact hinv1 r hr' hup
    · have hrn : r = new := by simpa using hr'
      rw [hrn, hsym, hs]
  · rw [List.filter_append]
    have hone : [new].filter (sqlMatches s) = [new] := by
      simp [sqlMatches, hsym, hs]
    rw [hone, List.map_append, hinv2, List.range'_concat]
    congr 1
    simp [hver]
    omega

/-- A symbol- and version-preserving row map keeps both invariants. -/
theorem touch_step {st : Store} {s : String} {k : Nat}
    (f : EnrichedRow → EnrichedRow)
    (hfs : ∀ r, (f r).symbol = r.symbol) (hfv : ∀ r, (f r).version = r.version)
    (hinv1 : ∀ r ∈ st.rows, upStr r.symbol = s → r.symbol = s)
    (hinv2 : (st.rows.filter (sqlMatches s)).map (fun r => r.version) = List.range' 1 k) :
    (∀ r ∈ st.rows.map f, upStr r.symbol = s → r.symbol = s) ∧
    ((st.rows.map f).filter (sqlMatches s)).map (fun r => r.version) =
      List.range' 1 k := by
  constructor
  · intro r' hr' hup
    obtain ⟨r, hr, rfl⟩ := List.mem_map.mp hr'
    rw [hfs] at hup ⊢
    exact hinv1 r hr hup
  · rw [filter_map_stable (fun r => by simp [sqlMatches, hfs])]
    rw [List.map_map]
    have hmc : List.map ((fun r => r.version) ∘ f) (st.rows.filter (sqlMatches s)) =
        List.map (fun r => r.version) (st.rows.filter (sqlMatches s)) :=
      List.map_congr_left (fun a _ => hfv a)
    rw [hmc]
    exact hinv2

/-- One write through either upsert path: an insert extends the version
range by exactly one (new version = previous maximum + 1), a no-change
touch leaves the versions untouched. -/
theorem c5_step (st : Store) (s : String) (op : Op) (k : Nat)
    (hs : upStr s = s) (hop : op.sym = s)
    (hinv1 : ∀ r ∈ st.rows, upStr r.symbol = s → r.symbol = s)
    (hinv2 : (st.rows.filter (sqlMatches s)).map (fun r => r.version) = List.range' 1 k) :
    (∀ r ∈ (applyOp st op).rows, upStr r.symbol = s → r.symbol = s) ∧
    ((applyOp st op).rows.filter (sqlMatches s)).map (fun r => r.version) =
      List.range' 1 (k + if opInserted st op then 1 else 0) := by
  cases op with
  | batch s' a t =>
    have hseq : s' = s := hop
    subst hseq
    simp only [applyOp, update_enriched_data]
    cases hl : latestOf (st.rows.filter (sqlMatches s')) with
    | none =>
      dsimp only
      have hopi : opInserted st (Op.batch s' a t) = true := by
        simp [opInserted, hl]
      rw [if_pos hopi]
      exact insert_step hs hinv1 hinv2 _ (by simp [rowOfAnalysis])
        (by simp [rowOfAnalysis, maxVersion_of_range hinv2])
    | some ex =>
      dsimp only
      by_cases hh : (ex.data_hash == batchDataHash a) = true
      · rw [if_pos hh]
        have hhf : opInserted st (Op.batch s' a t) = false := by
          simp [opInserted, hl, hh]
        rw [if_neg (by simp [hhf])]
        rw [Nat.add_zero]
        exact touch_step _
          (fun r => by
            by_cases hc : (sqlMatches s' r && r.version == ex.version) = true <;> simp [hc])
          (fun r => by
            by_cases hc : (sqlMatches s' r && r.version == ex.version) = true <;> simp [hc])
          hinv1 hinv2
      · rw [if_neg hh]
        have hopi : opInserted st (Op.batch s' a t) = true := by
          have hfalse : (ex.data_hash == batchDataHash a) = false := by
            revert hh
            cases ex.data_hash == batchDataHash a <;> simp
          simp [opInserted, hl, hfalse]
        rw [if_pos hopi]
        exact insert_step hs hinv1 hinv2 _ (by simp [rowOfAnalysis])
          (by simp [rowOfAnalysis, maxVersion_of_range hinv2])
  | django s' dta t =>
    have hseq : s' = s := hop
    subst hseq
    have hfilters : st.rows.filter (fun r => r.symbol == upStr s') =
        st.rows.filter (sqlMatches s') := by
      apply List.filter_congr
      intro r hrmem
      by_cases hr1 : r.symbol = s'
      · have : upStr r.symbol = upStr s' := by rw [hr1]
        simp [sqlMatches, hr1, this, hs]
      · by_cases hr2 : upStr r.symbol = s'
        · exact absurd (hinv1 r hrmem hr2) hr1
        · have h1 : (r.symbol == upStr s') = false := by
            rw [hs]
            exact beq_eq_false_iff_ne.mpr hr1
          have h2 : (upStr r.symbol == upStr s') = false := by
            rw [hs]
            exact beq_eq_false_iff_ne.mpr hr2
          simp [sqlMatches, h1, h2]
    have hlat : get_latest_version st s' = latestOf (st.rows.filter (sqlMatches s')) := by
      unfold get_latest_version
      rw [hfilters]
    simp only [applyOp, create_new_version]
    by_cases hch : has_data_changed st s' dta = true
    · rw [if_pos hch]
      dsimp only
      have hopi : opInserted st (Op.django s' dta t) = true := hch
      rw [if_pos hopi]
      refine insert_step hs hinv1 hinv2 _ (by simp [rowOfModelFields]) ?_
      simp only [rowOfModelFields]
      cases hk : k with
      | zero =>
        have hnil : st.rows.filter (sqlMatches s') = [] := by
          apply List.map_eq_nil.mp
          rw [hinv2, hk]
          rfl
        rw [hlat, hnil]
        rfl
      | succ k' =>
        obtain ⟨b, hb, hbv⟩ := latestOf_version_of_range (by rw [hinv2, hk])
        rw [hlat, hb]
        simp [hbv]
    · rw [if_neg hch]
      have hopi : opInserted st (Op.django s' dta t) = false := by
        revert hch
        simp only [opInserted]
        cases has_data_changed st s' dta <;> simp
      rw [if_neg (by simp [hopi]), Nat.add_zero]
      cases hlat0 : get_latest_version st s' with
      | none => exact ⟨hinv1, hinv2⟩
      | some l0 =>
        dsimp only
        exact touch_step _
          (fun r => by by_cases hc : r = l0 <;> simp [hc])
          (fun r => by by_cases hc : r = l0 <;> simp [hc])
          hinv1 hinv2

/-- C5: starting from a symbol with no stored rows, after any sequence of
batch or Django upserts for it the symbol's stored versions are exactly
1, 2, ..., N where N is the number of writes whose fields differed from
the latest stored fingerprint (an unchanged write never creates a row),
so the versions are strictly increasing and the maximum version equals N. -/
theorem c5_version_monotonic (st : Store) (s : String) (ops : List Op)
    (hs : upStr s = s)
    (hops : ∀ op ∈ ops, op.sym = s)
    (hnone : ∀ r ∈ st.rows, ¬ upStr r.symbol = s) :
    ((applyOps st ops).rows.filter (sqlMatches s)).map (fun r => r.version) =
      List.range' 1 (changeCount st ops) ∧
    maxVersion (applyOps st ops) s = changeCount st ops := by
  suffices h : ∀ (rest : List Op) (st' : Store) (k : Nat),
      (∀ op ∈ rest, op.sym = s) →
      (∀ r ∈ st'.rows, upStr r.symbol = s → r.symbol = s) →
      ((st'.rows.filter (sqlMatches s)).map (fun r => r.version) = List.range' 1 k) →
      ((applyOps st' rest).rows.filter (sqlMatches s)).map (fun r => r.version) =
        List.range' 1 (k + changeCount st' rest) by
    have hinv1 : ∀ r ∈ st.rows, upStr r.symbol = s → r.symbol = s :=
      fun r hr hup => absurd hup (hnone r hr)
    have h0 : (st.rows.filter (sqlMatches s)).map (fun r => r.version) =
        List.range' 1 0 := by
      have hnil : st.rows.filter (sqlMatches s) = [] := by
        rw [List.filter_eq_nil]
        intro r hr
        simp only [sqlMatches, hs, beq_iff_eq]
        exact hnone r hr
      rw [hnil]
      rfl
    have hmain := h ops st 0 hops hinv1 h0
    rw [Nat.zero_add] at hmain
    exact ⟨hmain, maxVersion_of_range hmain⟩
  intro rest
  induction rest with
  | nil =>
    intro st' k _ _ hinv2
    simpa using hinv2
  | cons op more ih =>
    intro st' k hops' hinv1 hinv2
    have hstep := c5_step st' s op k hs (hops' op (by simp)) hinv1 hinv2
    have hrec := ih (applyOp st' op) (k + if opInserted st' op then 1 else 0)
      (fun o ho => hops' o (by simp [ho])) hstep.1 hstep.2
    have happ : applyOps st' (op :: more) = applyOps (applyOp st' op) more := rfl
    rw [happ, hrec]
    congr 1
    have hcc : changeCount st' (op :: more) =
        (if opInserted st' op then 1 else 0) + changeCount (applyOp st' op) more := rfl
    rw [hcc]
    omega

/-- C5 witness: the version theorem applied to the concrete sequence of two
identical batch writes and one changed Django write for ABC, which yields
versions 1 and 2 and change count 2. -/
theorem c5_version_witness :
    ((applyOps { listing := [], rows := [] } c5ops).rows.filter
      (sqlMatches "ABC")).map (fun r => r.version) =
      List.range' 1 (changeCount { listing := [], rows := [] } c5ops) ∧
    maxVersion (applyOps { listing := [], rows := [] } c5ops) "ABC" =
      changeCount { listing := [], rows := [] } c5ops :=
  c5_version_monotonic { listing := [], rows := [] } "ABC" c5ops (by decide)
    (by decide) (by decide)

/-- A symbol survives the join-and-filter of `get_stale_tickers` exactly
when it is a known symbol satisfying the declarative spec predicate. -/
theorem mem_kept (st : Store) (days : Nat) (min_quality : ℚ) (now : Int) (l : String) :
    l ∈ (keptRows st days min_quality now).map Prod.fst ↔
      l ∈ st.listing ∧ specStalePred st days min_quality now l = true := by
  constructor
  · intro hmem
    obtain ⟨p, hp, hpl⟩ := List.mem_map.mp hmem
    obtain ⟨hpj, hpw⟩ := List.mem_filter.mp hp
    obtain ⟨l', hl', hpb⟩ := List.mem_flatMap.mp hpj
    dsimp only at hpb
    by_cases hes : (st.rows.filter (sqlMatches l')).isEmpty = true
    · rw [if_pos hes] at hpb
      have hpn : p = (l', none) := by simpa using hpb
      subst hpn
      have hll : l' = l := hpl
      subst hll
      refine ⟨hl', ?_⟩
      unfold whereClause at hpw
      unfold specStalePred
      simp only [Bool.and_eq_true] at hpw ⊢
      obtain ⟨⟨⟨hlen, _⟩, hrhq⟩, hq⟩ := hpw
      exact ⟨⟨⟨hlen, by simp [hes]⟩, hrhq⟩, hq⟩
    · rw [if_neg hes] at hpb
      obtain ⟨e, he, hpe⟩ := List.mem_map.mp hpb
      have hpn : p = (l', some e) := hpe.symm
      subst hpn
      have hll : l' = l := hpl
      subst hll
      refine ⟨hl', ?_⟩
      obtain ⟨hem, hematch⟩ := List.mem_filter.mp he
      unfold whereClause at hpw
      unfold specStalePred
      simp only [Bool.and_eq_true] at hpw ⊢
      obtain ⟨⟨⟨hlen, hdisj⟩, hrhq⟩, hq⟩ := hpw
      refine ⟨⟨⟨hlen, ?_⟩, hrhq⟩, hq⟩
      unfold staleDisjunct at hdisj
      simp only [Bool.or_eq_true] at hdisj ⊢
      rcases hdisj with (h1 | h2) | h3
      · exact Or.inl (Or.inl (Or.inr (List.any_eq_true.mpr ⟨e, hem, by simp [hematch, h1]⟩)))
      · exact Or.inl (Or.inr (List.any_eq_true.mpr ⟨e, hem, by simp [hematch, h2]⟩))
      · exact Or.inr (List.any_eq_true.mpr ⟨e, hem, by simp [hematch, h3]⟩)
  · rintro ⟨hl, hpred⟩
    unfold specStalePred at hpred
    simp only [Bool.and_eq_true] at hpred
    obtain ⟨⟨⟨hlen, hdisj⟩, hrhq⟩, hq⟩ := hpred
    by_cases hes : (st.rows.filter (sqlMatches l)).isEmpty = true
    · refine List.mem_map.mpr ⟨(l, none), ?_, rfl⟩
      refine List.mem_filter.mpr ⟨?_, ?_⟩
      · refine List.mem_flatMap.mpr ⟨l, hl, ?_⟩
        dsimp only
        rw [if_pos hes]
        simp
      · unfold whereClause
        simp only [Bool.and_eq_true]
        exact ⟨⟨⟨hlen, trivial⟩, hrhq⟩, hq⟩
    · have hdisj' : ∃ e ∈ st.rows.filter (sqlMatches l),
          staleDisjunct now days min_quality e = true := by
        simp only [Bool.or_eq_true] at hdisj
        rcases hdisj with ((h0 | h1) | h2) | h3
        · exact absurd h0 hes
        · obtain ⟨e, he, hc⟩ := List.any_eq_true.mp h1
          simp only [Bool.and_eq_true] at hc
          exact ⟨e, List.mem_filter.mpr ⟨he, hc.1⟩, by
            unfold staleDisjunct
            simp [hc.2]⟩
        · obtain ⟨e, he, hc⟩ := List.any_eq_true.mp h2
          simp only [Bool.and_eq_true] at hc
          exact ⟨e, List.mem_filter.mpr ⟨he, hc.1⟩, by
            unfold staleDisjunct
            simp [hc.2]⟩
        · obtain ⟨e, he, hc⟩ := List.any_eq_true.mp h3
          simp only [Bool.and_eq_true] at hc
          exact ⟨e, List.mem_filter.mpr ⟨he, hc.1⟩, by
            unfold staleDisjunct
            simp [hc.2]⟩
      obtain ⟨e, he, hse⟩ := hdisj'
      refine List.mem_map.mpr ⟨(l, some e), ?_, rfl⟩
      refine List.mem_filter.mpr ⟨?_, ?_⟩
      · refine List.mem_flatMap.mpr ⟨l, hl, ?_⟩
        dsimp only
        rw [if_neg hes]
        exact List.mem_map_of_mem _ he
      · unfold whereClause
        simp only [Bool.and_eq_true]
        exact ⟨⟨⟨hlen, hse⟩, hrhq⟩, hq⟩

/-- The sorted deduplicated symbols of the SQL pipeline coincide with the
sorted deduplicated declarative selection. -/
theorem stale_sorted_eq (st : Store) (days : Nat) (min_quality : ℚ) (now : Int) :
    sortLe strLe ((keptRows st days min_quality now).map Prod.fst).dedup =
      sortLe strLe (st.listing.filter (specStalePred st days min_quality now)).dedup := by
  apply sorted_perm_eq strLe (fun a b h1 h2 => strLe_antisymm h1 h2)
  · exact sortLe_pairwise strLe strLe_total (fun a b c h1 h2 => strLe_trans h1 h2) _
  · exact sortLe_pairwise strLe strLe_total (fun a b c h1 h2 => strLe_trans h1 h2) _
  · refine ((sortLe_perm strLe _).trans ?_).trans (sortLe_perm strLe _).symm
    rw [List.perm_ext_iff_of_nodup (List.nodup_dedup _) (List.nodup_dedup _)]
    intro a
    rw [List.mem_dedup, List.mem_dedup, mem_kept, List.mem_filter]

/-- C7 counterexample: the selector as the claim literally words it
diverges from the code. On a store listing the empty-string symbol (no
record) and AA (a failed record with NULL `fetch_errors`, fresh and
high-quality), the code's `get_stale_tickers` returns nothing — the empty
symbol fails the SQL `LENGTH(symbol) BETWEEN 1 AND 32` filter, and AA's
NULL `fetch_errors` makes the failed-without-404 disjunct UNKNOWN under
SQL three-valued logic — while the claim's literal filter selects both. -/
theorem c7_selector_counterexample :
    get_stale_tickers c7cexStore 7 10 (mkRat 4 5) 100 = [] ∧
    selectCandidatesClaim c7cexStore 7 10 (mkRat 4 5) 100 = ["", "AA"] := by
  decide

/-- C7 (amended): for every database state and arguments, the staleness
selector returns, sorted lexicographically and capped at the limit,
exactly the known symbols of length 1 to 32 that have no enrichment
record, or a record older than the freshness window, or a failed record
whose non-NULL `fetch_errors` carries no 404 tag, or a record below the
quality threshold — excluding symbols with a recent (1-day) record
meeting the threshold and excluding quarantined symbols; and on the
spec's concrete scenario (30 known symbols: 10 quarantined, 5 fresh
high-quality, 15 stale, limit 10) it returns exactly the first 10 of the
15 stale symbols. -/
theorem c7_selector_amended :
    (∀ (st : Store) (days limit : Nat) (min_quality : ℚ) (now : Int),
      get_stale_tickers st days limit min_quality now =
        selectCandidates st days limit min_quality now) ∧
    get_stale_tickers scenarioStore 7 10 (mkRat 4 5) 100 =
      ["S01", "S02", "S03", "S04", "S05", "S06", "S07", "S08", "S09", "S10"] := by
  constructor
  · intro st days limit min_quality now
    unfold get_stale_tickers selectCandidates
    rw [stale_sorted_eq]
  · decide
